import Mathlib

/-!
# Verification of the pyk all-path-reachability proof engine

A shallow embedding, in Lean 4, of the proof-state / prover layer of the
`pyk` repository (`src/pyk/proof/reachability.py`) together with the sort
lattice of `src/pyk/kore/kompiled.py`.  Pure functions of the Python source
become Lean functions; the mutating prover loops become explicit
state-passing functions; fallible Python code (raised exceptions) returns
`Except`/`Option`.  Parts of the repository that the proof layer uses but
whose source is not part of the analysed tree (the `KCFG` proof graph, the
`Proof` base class, `RefutationProof`, `LogEntry`, and the kast term
utilities) are modelled from the specification and are marked
`Modelled from the spec:` in their doc comments.
-/

deriving instance DecidableEq for Except

/-- Status of a proof, from the `ProofStatus` enumeration of the base proof
module.  Modelled from the spec: `status ∈ {PENDING, PASSED, FAILED}`. -/
inductive ProofStatus where
  | passed
  | pending
  | failed
deriving DecidableEq, Repr

/-- Modelled from the spec: internal kast terms (`KInner` of `kast/inner.py`,
not in the analysed sources).  A first-order term language: labelled
applications carrying sort parameters, variables and tokens.  An n-ary
application `KApply(label, args)` is encoded as the curried application of
the label constant to its arguments (see `kapply`). -/
inductive KInner where
  | klabel (label : String) (sortParams : List String)
  | kapp (fn arg : KInner)
  | kvar (name : String)
  | ktoken (tok : String) (sort : String)
deriving DecidableEq, Repr

/-- `KApply(KLabel(label, sortParams), args)` in curried encoding. -/
def kapply (label : String) (sortParams : List String) (args : List KInner) : KInner :=
  args.foldl KInner.kapp (KInner.klabel label sortParams)

/-- The boolean sort name, `BOOL` of `prelude/kbool.py`. -/
def BOOL : String := "Bool"

/-- The token `TRUE` of `prelude/kbool.py`. -/
def TRUE : KInner := KInner.ktoken "true" BOOL

/-- Modelled from the spec: `ml_pred_to_bool` (`kast/manip.py`, not in the
analysed sources) converts a matching-logic predicate into its boolean
counterpart; treated as an opaque total structural conversion. -/
def ml_pred_to_bool (p : KInner) : KInner := kapply "predToBool" [] [p]

/-- `mlEquals` of `prelude/ml.py` (not in the analysed sources):
`KApply(KLabel('#Equals', [arg_sort, sort]), [lhs, rhs])` with result sort
defaulting to `K`.  Modelled from the spec. -/
def mlEquals (lhs rhs : KInner) (argSort : String) : KInner :=
  kapply "#Equals" [argSort, "K"] [lhs, rhs]

/-- Modelled from the spec: a symbolic program state (`CTerm`): a
configuration term plus a list of path constraints. -/
structure CTerm where
  config : KInner
  constraints : List KInner
deriving DecidableEq, Repr

/-- Modelled from the spec: a graph node: a canonical integer id plus its
`CTerm`.  Node ids are canonical integers; string alias resolution
(`KCFG._resolve`) maps any alias to the canonical id and is the identity on
canonical integer ids, so for integer-only id values it is omitted. -/
structure Node where
  id : Nat
  cterm : CTerm
deriving DecidableEq, Repr

/-- Modelled from the spec: a constrained substitution (`csubst` = variable
bindings + extra constraints) attached to `Split` and `Cover` successors. -/
structure CSubst where
  subst : List (String × KInner)
  constraints : List KInner
deriving DecidableEq, Repr

/-- Modelled from the spec: the polymorphic successor kind of the proof
graph, a tagged union over the four variants.  As in the source, every
successor stores its source (and target) nodes as values.  In a path
returned by the graph's path queries a `split`/`ndbranch` successor is
narrowed to the single branch actually taken (`path_constraints` of the
source asserts `len(edge.targets) == 1` for splits on a path). -/
inductive Successor where
  | edge (source target : Node) (depth : Nat) (rules : List String)
  | split (source : Node) (branches : List (Node × CSubst))
  | cover (source target : Node) (csubst : CSubst)
  | ndbranch (source : Node) (targets : List Node)
deriving DecidableEq, Repr

/-- The source node of a successor. -/
def Successor.src : Successor → Node
  | .edge s _ _ _ => s
  | .split s _ => s
  | .cover s _ _ => s
  | .ndbranch s _ => s

/-- The target node ids of a successor. -/
def Successor.targetIds : Successor → List Nat
  | .edge _ t _ _ => [t.id]
  | .split _ brs => brs.map (fun b => b.1.id)
  | .cover _ t _ => [t.id]
  | .ndbranch _ ts => ts.map (·.id)

/-- Whether the successor is a `Split`. -/
def Successor.isSplit : Successor → Bool
  | .split _ _ => true
  | _ => false

/-- Whether the successor is a branching successor (`Split` or `NDBranch`),
the filter used by `construct_node_refutation`. -/
def Successor.isBranch : Successor → Bool
  | .split _ _ => true
  | .ndbranch _ _ => true
  | _ => false

/-- Modelled from the spec: the proof graph (`KCFG` of `kcfg/kcfg.py`, not
in the analysed sources).  Nodes and successors are append-only lists in
insertion order.  The structural queries `shortest_path_between`,
`paths_between` and `zero_depth_between`, which the spec lists as exposed
graph-search operations, are modelled as finite query tables; `stuck_marks`
records the leaves the backend could not step (the spec's `stuck`
category: a leaf that could not be advanced and was not subsumed). -/
structure KCFG where
  nodes : List Node
  succs : List Successor
  stuck_marks : List Nat
  spathTab : List ((Nat × Nat) × List Successor)
  pathsTab : List ((Nat × Nat) × List (List Successor))
  zeroDepthTab : List (Nat × Nat)
deriving DecidableEq, Repr

/-- `KCFG.is_leaf`: the node has no outgoing successor of any kind. -/
def KCFG.is_leaf (g : KCFG) (nid : Nat) : Bool :=
  !(g.succs.any (fun s => s.src.id == nid))

/-- `KCFG.leaves`: all leaves, in node-insertion order. -/
def KCFG.leaves (g : KCFG) : List Node :=
  g.nodes.filter (fun nd => g.is_leaf nd.id)

/-- `KCFG.is_stuck`: a leaf the backend could not step. -/
def KCFG.is_stuck (g : KCFG) (nid : Nat) : Bool :=
  g.is_leaf nid && g.stuck_marks.contains nid

/-- `KCFG.node`: look a node up by id (the source raises if absent). -/
def KCFG.node (g : KCFG) (nid : Nat) : Option Node :=
  g.nodes.find? (fun nd => nd.id == nid)

/-- `KCFG.splits(target_id=nid)`: the split successors having `nid` among
their branch targets. -/
def KCFG.splitsInto (g : KCFG) (nid : Nat) : List Successor :=
  g.succs.filter (fun s => s.isSplit && (s.targetIds.contains nid))

/-- `KCFG.shortest_path_between`, via the modelled query table. -/
def KCFG.shortest_path_between (g : KCFG) (a b : Nat) : Option (List Successor) :=
  (g.spathTab.find? (fun e => e.1 == (a, b))).map (·.2)

/-- `KCFG.paths_between`, via the modelled query table. -/
def KCFG.paths_between (g : KCFG) (a b : Nat) : List (List Successor) :=
  ((g.pathsTab.find? (fun e => e.1 == (a, b))).map (·.2)).getD []

/-- `KCFG.zero_depth_between`, via the modelled query table. -/
def KCFG.zero_depth_between (g : KCFG) (a b : Nat) : Bool :=
  g.zeroDepthTab.contains (a, b)

/-- A fresh node id: one above the largest allocated id. -/
def KCFG.freshId (g : KCFG) : Nat :=
  (g.nodes.map (·.id)).foldl max 0 + 1

/-- `KCFG.create_node`: return the existing node if a content-identical one
exists, else allocate a fresh one (content-hash identity, modelled from the
spec). -/
def KCFG.create_node (g : KCFG) (ct : CTerm) : KCFG × Node :=
  match g.nodes.find? (fun nd => nd.cterm == ct) with
  | some nd => (g, nd)
  | none =>
    let nd : Node := ⟨g.freshId, ct⟩
    ({ g with nodes := g.nodes ++ [nd] }, nd)

/-- `KCFG.create_cover`: append a cover successor. -/
def KCFG.create_cover (g : KCFG) (source target : Node) (csubst : CSubst) : KCFG :=
  { g with succs := g.succs ++ [Successor.cover source target csubst] }

/-- `KCFG.split_on_constraints`: split a node into one child per boolean
discriminant; each child's cterm adds that discriminant as an extra
constraint and the corresponding branch's csubst has an empty substitution
and that single constraint (modelled from the spec). -/
def KCFG.split_on_constraints (g : KCFG) (curr : Node) (branches : List KInner) : KCFG :=
  let step := fun (acc : KCFG × List (Node × CSubst)) (c : KInner) =>
    let (g', nd) := acc.1.create_node ⟨curr.cterm.config, curr.cterm.constraints ++ [c]⟩
    (g', acc.2 ++ [(nd, ⟨[], [c]⟩)])
  let out := branches.foldl step (g, [])
  { out.1 with succs := out.1.succs ++ [Successor.split curr out.2] }

/-- Modelled from the spec: a backend-emitted log entry (`LogEntry` of
`kore/rpc.py`, not in the analysed sources): an opaque record of a rule
name plus a substitution, preserved verbatim through serialization. -/
structure LogEntry where
  ruleId : String
  substitution : List (String × String)
deriving DecidableEq, Repr

/-- `RefutationProof` (`proof/equality.py`, not in the analysed sources).
Modelled from the spec: a boolean-equality sub-proof with the premises
(`pre_constraints`) and the single extra assertion (`last_constraint`);
its status is settled by an external solver and is modelled as a field. -/
structure RefutationProof where
  id : String
  sort : String
  pre_constraints : List KInner
  last_constraint : KInner
  status : ProofStatus
deriving DecidableEq, Repr

/-- Modelled from the spec: a loaded sub-proof as seen by its parent:
either a `RefutationProof`, or some other proof of which only the derived
status matters to the parent (sub-proofs are read-only once loaded). -/
inductive SubProof where
  | refutationSub (r : RefutationProof)
  | aprSub (id : String) (status : ProofStatus)
deriving DecidableEq, Repr

/-- The derived status of a loaded sub-proof. -/
def SubProof.subStatus : SubProof → ProofStatus
  | .refutationSub r => r.status
  | .aprSub _ s => s

/-- `APRProof` (`proof/reachability.py`): a proof graph with designated
init/target nodes, terminal markings, node refutations, logs, circularity
and the base-class data (id, admitted flag, sub-proof ids, loaded
sub-proofs). -/
structure APRProof where
  id : String
  admitted : Bool
  subproof_ids : List String
  subproofsLoaded : List (String × SubProof)
  kcfg : KCFG
  init : Nat
  target : Nat
  terminal_nodes : List Nat
  node_refutations : List (Nat × RefutationProof)
  logs : List (Nat × List LogEntry)
  circularity : Bool
deriving DecidableEq, Repr

/-- `APRProof.is_refuted`: the node has an associated `RefutationProof`. -/
def APRProof.is_refuted (p : APRProof) (nid : Nat) : Bool :=
  p.node_refutations.any (fun e => e.1 == nid)

/-- `APRProof.is_terminal`: the node is marked terminal. -/
def APRProof.is_terminal (p : APRProof) (nid : Nat) : Bool :=
  p.terminal_nodes.contains nid

/-- `APRProof.is_init`: the node is the (resolved) init node. -/
def APRProof.is_init (p : APRProof) (nid : Nat) : Bool :=
  nid == p.init

/-- `APRProof.is_target`: the node is the (resolved) target node. -/
def APRProof.is_target (p : APRProof) (nid : Nat) : Bool :=
  nid == p.target

/-- `APRProof.is_pending`: a leaf that is not terminal, stuck, the target,
or refuted. -/
def APRProof.is_pending (p : APRProof) (nid : Nat) : Bool :=
  p.kcfg.is_leaf nid &&
    !(p.is_terminal nid || p.kcfg.is_stuck nid || p.is_target nid || p.is_refuted nid)

/-- `APRProof.is_failing`: a leaf that is not pending, the target, or
refuted. -/
def APRProof.is_failing (p : APRProof) (nid : Nat) : Bool :=
  p.kcfg.is_leaf nid && !(p.is_pending nid || p.is_target nid || p.is_refuted nid)

/-- `APRProof.pending`: the pending leaves, in insertion order. -/
def APRProof.pending (p : APRProof) : List Node :=
  p.kcfg.leaves.filter (fun nd => p.is_pending nd.id)

/-- `APRProof.failing`: the failing leaves, in insertion order. -/
def APRProof.failing (p : APRProof) : List Node :=
  p.kcfg.leaves.filter (fun nd => p.is_failing nd.id)

/-- `Proof.subproofs_status` (base proof module, not in the analysed
sources).  Modelled from the spec: `FAILED` if any sub-proof is FAILED,
else `PENDING` if any is PENDING, else `PASSED`. -/
def APRProof.subproofs_status (p : APRProof) : ProofStatus :=
  if p.subproofsLoaded.any (fun e => e.2.subStatus == ProofStatus.failed) then
    ProofStatus.failed
  else if p.subproofsLoaded.any (fun e => e.2.subStatus == ProofStatus.pending) then
    ProofStatus.pending
  else ProofStatus.passed

/-- `APRProof.status`: PASSED if admitted; else FAILED on a failing leaf or
FAILED sub-proof; else PENDING on a pending leaf or PENDING sub-proof;
else PASSED. -/
def APRProof.status (p : APRProof) : ProofStatus :=
  if p.admitted then ProofStatus.passed
  else if p.failing.length > 0 || p.subproofs_status == ProofStatus.failed then
    ProofStatus.failed
  else if p.pending.length > 0 || p.subproofs_status == ProofStatus.pending then
    ProofStatus.pending
  else ProofStatus.passed

/-- `APRProof.add_terminal`. -/
def APRProof.add_terminal (p : APRProof) (nid : Nat) : APRProof :=
  { p with terminal_nodes := p.terminal_nodes ++ [nid] }

/-- `APRProof.shortest_path_to`: shortest path from the init node. -/
def APRProof.shortest_path_to (p : APRProof) (nid : Nat) : Option (List Successor) :=
  p.kcfg.shortest_path_between p.init nid

/-- `APRProof.get_refutation_id`. -/
def APRProof.get_refutation_id (p : APRProof) (nid : Nat) : String :=
  p.id ++ ".node-infeasible-" ++ toString nid

/-- `APRBMCProof` extends `APRProof` with a `bmc_depth` bound and the
bounded node list. -/
structure APRBMCProof extends APRProof where
  bmc_depth : Nat
  bounded_nodes : List Nat
deriving DecidableEq, Repr

/-- `APRBMCProof.is_bounded`: the node hit the loop-revisit bound. -/
def APRBMCProof.is_bounded (p : APRBMCProof) (nid : Nat) : Bool :=
  p.bounded_nodes.contains nid

/-- `APRBMCProof.is_pending` (overrides the base): a leaf not terminal,
stuck, bounded, or the target.  Note: unlike the base, refuted leaves are
not excluded. -/
def APRBMCProof.is_pending (p : APRBMCProof) (nid : Nat) : Bool :=
  p.kcfg.is_leaf nid &&
    !(p.toAPRProof.is_terminal nid || p.kcfg.is_stuck nid || p.is_bounded nid ||
      p.toAPRProof.is_target nid)

/-- `APRBMCProof.is_failing` (overrides the base): a leaf not pending, the
target, or bounded.  Note: unlike the base, refuted leaves are not
excluded. -/
def APRBMCProof.is_failing (p : APRBMCProof) (nid : Nat) : Bool :=
  p.kcfg.is_leaf nid &&
    !(p.is_pending nid || p.toAPRProof.is_target nid || p.is_bounded nid)

/-- `APRBMCProof.pending` (via the overridden `is_pending`, as Python's
dynamic dispatch computes it). -/
def APRBMCProof.pending (p : APRBMCProof) : List Node :=
  p.kcfg.leaves.filter (fun nd => p.is_pending nd.id)

/-- `APRBMCProof.failing` (via the overridden `is_failing`). -/
def APRBMCProof.failing (p : APRBMCProof) : List Node :=
  p.kcfg.leaves.filter (fun nd => p.is_failing nd.id)

/-- `APRBMCProof.add_bounded`. -/
def APRBMCProof.add_bounded (p : APRBMCProof) (nid : Nat) : APRBMCProof :=
  { p with bounded_nodes := p.bounded_nodes ++ [nid] }

/-- The sort-lattice fragment of `KompiledKore` (`kore/kompiled.py`): sorts
are identified by name (`SortApp` names); `subsort_table` maps each
supersort to its registered (direct-or-transitive) subsorts, a set modelled
as a duplicate-free association list of lists. -/
structure KompiledKore where
  subsort_table : List (String × List String)
deriving DecidableEq, Repr

/-- `self._subsort_table.get(sort, frozenset())`. -/
def KompiledKore.tget (k : KompiledKore) (s : String) : List String :=
  ((k.subsort_table.find? (fun e => e.1 == s)).map (·.2)).getD []

/-- The universal top sort `SortK`. -/
def topSort : String := "SortK"

/-- `KompiledKore.is_subsort`. -/
def KompiledKore.is_subsort (k : KompiledKore) (sort1 sort2 : String) : Bool :=
  if sort1 == sort2 then true
  else if sort2 == topSort then true
  else if sort1 == topSort then false
  else (k.tget sort2).contains sort1

/-- `(subsort,) = max_subsorts`: the sole element, or `None` for the failed
unpacking of a non-singleton set. -/
def singletonOrNone (ms : List String) : Option String :=
  match ms with
  | [s] => some s
  | _ => none

/-- `nr_subsorts = {sort: len(...) for sort in common_subsorts}`: each
common subsort paired with its subsort-set cardinality. -/
def KompiledKore.nrSubsorts (k : KompiledKore) (common_subsorts : List String) :
    List (String × Nat) :=
  common_subsorts.map (fun s => (s, (k.tget s).dedup.length))

/-- The tail of `KompiledKore.meet_sorts` after `common_subsorts` has been
computed: fail on an empty intersection, else pick the unique
maximal-cardinality member (`None` models both raised errors: the
`ValueError` on no common subsort and the failed `(subsort,) =
max_subsorts` unpacking on a non-unique maximum). -/
def KompiledKore.meetFromCommon (k : KompiledKore) (common_subsorts : List String) :
    Option String :=
  if common_subsorts.isEmpty then none
  else singletonOrNone
    (((k.nrSubsorts common_subsorts).filter
        (fun e => e.2 == ((k.nrSubsorts common_subsorts).map (·.2)).foldl max 0)).map (·.1))

/-- `KompiledKore.meet_sorts`. -/
def KompiledKore.meet_sorts (k : KompiledKore) (sort1 sort2 : String) : Option String :=
  if k.is_subsort sort1 sort2 then some sort1
  else if k.is_subsort sort2 sort1 then some sort2
  else
    k.meetFromCommon
      (((k.tget sort1 ++ [sort1]).dedup).filter
        (fun s => ((k.tget sort2 ++ [sort2]).dedup).contains s))

/-- `KompiledKore.meet_all_sorts`: left fold of `meet_sorts` from `SortK`,
in the `Option` monad since each meet can fail. -/
def KompiledKore.meet_all_sorts (k : KompiledKore) (sorts : List String) : Option String :=
  sorts.foldlM k.meet_sorts topSort

/-- The Python-level errors raised (or crashes hit) by the embedded proof
layer. -/
inductive PyErr where
  | keyError (key : String)
  | typeError (key : String)
  | valueErrorRefutations (violators : List String)
  | keyErrorSubproof (id : String)
  | assertRefutationType (id : String)
  | singleError
  | indexError
  | assertSplit
deriving DecidableEq, Repr

/-- A value of a persisted (JSON-shaped) proof record.  The `cfg` sub-record
and the log entries are carried as their in-memory values: the spec states
that the graph record and log entries round-trip exactly, so their own
(de)serializers are modelled as the identity embedding. -/
inductive DVal where
  | vstr (s : String)
  | vnat (n : Nat)
  | vbool (b : Bool)
  | vcfg (g : KCFG)
  | vnats (ns : List Nat)
  | vstrs (ss : List String)
  | vrefs (ps : List (Nat × String))
  | vlogs (ls : List (Nat × List LogEntry))
deriving DecidableEq, Repr

/-- A persisted proof record: string keys to values, insertion-ordered as a
Python dict. -/
abbrev PDict : Type := List (String × DVal)

/-- `dct[k] = v`: overwrite the first binding of `k` or append. -/
def dctSet (d : PDict) (k : String) (v : DVal) : PDict :=
  if d.any (fun e => e.1 == k) then
    d.map (fun e => if e.1 == k then (k, v) else e)
  else d ++ [(k, v)]

/-- `dct.get(k)`. -/
def dctGet (d : PDict) (k : String) : Option DVal :=
  (d.find? (fun e => e.1 == k)).map (·.2)

/-- `k in dct`. -/
def dctHas (d : PDict) (k : String) : Bool :=
  d.any (fun e => e.1 == k)

/-- `dct[k]` as a string (raises `KeyError`/`TypeError`). -/
def dctStr (d : PDict) (k : String) : Except PyErr String :=
  match dctGet d k with
  | some (DVal.vstr s) => Except.ok s
  | some _ => Except.error (PyErr.typeError k)
  | none => Except.error (PyErr.keyError k)

/-- `dct[k]` as a node id. -/
def dctNat (d : PDict) (k : String) : Except PyErr Nat :=
  match dctGet d k with
  | some (DVal.vnat n) => Except.ok n
  | some _ => Except.error (PyErr.typeError k)
  | none => Except.error (PyErr.keyError k)

/-- `dct[k]` as a bool, with a default (`dct.get(k, default)`). -/
def dctBoolD (d : PDict) (k : String) (dflt : Bool) : Bool :=
  match dctGet d k with
  | some (DVal.vbool b) => b
  | _ => dflt

/-- `dct[k]` as a graph record. -/
def dctCfg (d : PDict) (k : String) : Except PyErr KCFG :=
  match dctGet d k with
  | some (DVal.vcfg g) => Except.ok g
  | some _ => Except.error (PyErr.typeError k)
  | none => Except.error (PyErr.keyError k)

/-- `dct[k]` as a list of node ids. -/
def dctNats (d : PDict) (k : String) : Except PyErr (List Nat) :=
  match dctGet d k with
  | some (DVal.vnats ns) => Except.ok ns
  | some _ => Except.error (PyErr.typeError k)
  | none => Except.error (PyErr.keyError k)

/-- `dct[k]` as a list of strings. -/
def dctStrs (d : PDict) (k : String) : Except PyErr (List String) :=
  match dctGet d k with
  | some (DVal.vstrs ss) => Except.ok ss
  | some _ => Except.error (PyErr.typeError k)
  | none => Except.error (PyErr.keyError k)

/-- `dct[k]` as node-id/proof-id pairs. -/
def dctRefs (d : PDict) (k : String) : Except PyErr (List (Nat × String)) :=
  match dctGet d k with
  | some (DVal.vrefs ps) => Except.ok ps
  | some _ => Except.error (PyErr.typeError k)
  | none => Except.error (PyErr.keyError k)

/-- `dct[k]` as a logs mapping. -/
def dctLogs (d : PDict) (k : String) : Except PyErr (List (Nat × List LogEntry)) :=
  match dctGet d k with
  | some (DVal.vlogs ls) => Except.ok ls
  | some _ => Except.error (PyErr.typeError k)
  | none => Except.error (PyErr.keyError k)

/-- The loaded sub-proofs of a proof: the base `Proof` class (modelled from
the spec) fetches, from the proof directory `env`, each sub-proof named in
`subproof_ids`. -/
def loadSubproofs (env : List (String × SubProof)) (subproof_ids : List String) :
    List (String × SubProof) :=
  subproof_ids.filterMap (fun i => (env.find? (fun e => e.1 == i)).map (fun e => (i, e.2)))

/-- The resolution loop of `APRProof.__init__`: for each node-refutation
entry, look the sub-proof up among the loaded sub-proofs (`KeyError` if not
loaded), check it is a `RefutationProof` (`assert`), and record it under
its node id. -/
def resolveRefutations (loaded : List (String × SubProof)) :
    List (Nat × RefutationProof) → List (Nat × String) →
    Except PyErr (List (Nat × RefutationProof))
  | acc, [] => Except.ok acc
  | acc, e :: rest =>
    match loaded.find? (fun l => l.1 == e.2) with
    | none => Except.error (PyErr.keyErrorSubproof e.2)
    | some (_, SubProof.refutationSub r) => resolveRefutations loaded (acc ++ [(e.1, r)]) rest
    | some _ => Except.error (PyErr.assertRefutationType e.2)

/-- `APRProof.__init__`: validates that every node-refutation value is a
declared sub-proof id (else `ValueError` naming the violators), then
resolves each refutation through the loaded sub-proofs. -/
def APRProof.mk? (id : String) (kcfg : KCFG) (init target : Nat)
    (logs : List (Nat × List LogEntry))
    (node_refutations : Option (List (Nat × String)))
    (terminal_nodes : Option (List Nat)) (subproof_ids : List String)
    (env : List (String × SubProof)) (circularity admitted : Bool) :
    Except PyErr APRProof := do
  let loaded := loadSubproofs env subproof_ids
  let base : APRProof :=
    { id := id, admitted := admitted, subproof_ids := subproof_ids,
      subproofsLoaded := loaded, kcfg := kcfg, init := init, target := target,
      terminal_nodes := terminal_nodes.getD [], node_refutations := [],
      logs := logs, circularity := circularity }
  match node_refutations with
  | none => pure base
  | some nrs =>
    let violators := ((nrs.map (·.2)).filter (fun v => !subproof_ids.contains v)).dedup
    if violators.isEmpty then do
      let resolved ← resolveRefutations loaded [] nrs
      pure { base with node_refutations := resolved }
    else
      throw (PyErr.valueErrorRefutations violators)

/-- `Proof.dict` of the base class (modelled from the spec): the common
persisted fields `id`, `type`, `admitted`, `subproof_ids`. -/
def proofBaseDict (id : String) (admitted : Bool) (subproof_ids : List String) : PDict :=
  [("id", DVal.vstr id), ("type", DVal.vstr "Proof"),
   ("admitted", DVal.vbool admitted), ("subproof_ids", DVal.vstrs subproof_ids)]

/-- `APRProof.dict`: the base record extended with the APR fields.  Note
that the refutations are recorded under the key `node_refutations`
(`dct['node_refutations'] = {node_id: proof.id ...}`, here as id pairs). -/
def APRProof.dict (p : APRProof) : PDict :=
  let d := proofBaseDict p.id p.admitted p.subproof_ids
  let d := dctSet d "type" (DVal.vstr "APRProof")
  let d := dctSet d "cfg" (DVal.vcfg p.kcfg)
  let d := dctSet d "init" (DVal.vnat p.init)
  let d := dctSet d "target" (DVal.vnat p.target)
  let d := dctSet d "terminal_nodes" (DVal.vnats p.terminal_nodes)
  let d := dctSet d "node_refutations"
    (DVal.vrefs (p.node_refutations.map (fun e => (e.1, e.2.id))))
  let d := dctSet d "circularity" (DVal.vbool p.circularity)
  dctSet d "logs" (DVal.vlogs p.logs)

/-- `APRProof.from_dict`: note that the node-refutation map is only read
when the key `node_refutation` (without the final `s`) is present, although
the map itself is then read from the key `node_refutations`. -/
def APRProof.from_dict (env : List (String × SubProof)) (dct : PDict) :
    Except PyErr APRProof := do
  let cfg ← dctCfg dct "cfg"
  let init_node ← dctNat dct "init"
  let terminal_nodes ← dctNats dct "terminal_nodes"
  let target_node ← dctNat dct "target"
  let id ← dctStr dct "id"
  let circularity := dctBoolD dct "circularity" false
  let admitted := dctBoolD dct "admitted" false
  let subproof_ids ← if dctHas dct "subproof_ids" then dctStrs dct "subproof_ids"
    else pure []
  let node_refutations ← if dctHas dct "node_refutation" then dctRefs dct "node_refutations"
    else pure []
  let logs ← if dctHas dct "logs" then dctLogs dct "logs" else pure []
  APRProof.mk? id cfg init_node target_node logs (some node_refutations)
    (some terminal_nodes) subproof_ids env circularity admitted

/-- `APRBMCProof.__init__`: the base constructor plus the BMC fields. -/
def APRBMCProof.mk? (id : String) (kcfg : KCFG) (init target : Nat)
    (logs : List (Nat × List LogEntry)) (bmc_depth : Nat)
    (bounded_nodes : Option (List Nat))
    (subproof_ids : List String)
    (node_refutations : Option (List (Nat × String)))
    (env : List (String × SubProof)) (circularity admitted : Bool) :
    Except PyErr APRBMCProof := do
  let base ← APRProof.mk? id kcfg init target logs node_refutations none
    subproof_ids env circularity admitted
  pure { toAPRProof := base, bmc_depth := bmc_depth,
         bounded_nodes := bounded_nodes.getD [] }

/-- `APRBMCProof.dict`: the APR record with type `APRBMCProof` plus
`bmc_depth` and `bounded_nodes` (logs and circularity rewritten). -/
def APRBMCProof.dict (p : APRBMCProof) : PDict :=
  let d := p.toAPRProof.dict
  let d := dctSet d "type" (DVal.vstr "APRBMCProof")
  let d := dctSet d "bmc_depth" (DVal.vnat p.bmc_depth)
  let d := dctSet d "bounded_nodes" (DVal.vnats p.bounded_nodes)
  let d := dctSet d "logs" (DVal.vlogs p.logs)
  dctSet d "circularity" (DVal.vbool p.circularity)

/-- `APRBMCProof.from_dict`: as in the APR case, the node-refutation map is
only read when the key `node_refutation` (no final `s`) is present. -/
def APRBMCProof.from_dict (env : List (String × SubProof)) (dct : PDict) :
    Except PyErr APRBMCProof := do
  let cfg ← dctCfg dct "cfg"
  let init ← dctNat dct "init"
  let target ← dctNat dct "target"
  let bounded_nodes ← dctNats dct "bounded_nodes"
  let admitted := dctBoolD dct "admitted" false
  let circularity := dctBoolD dct "circularity" false
  let bmc_depth ← dctNat dct "bmc_depth"
  let subproof_ids ← if dctHas dct "subproof_ids" then dctStrs dct "subproof_ids"
    else pure []
  let node_refutations ← if dctHas dct "node_refutation" then dctRefs dct "node_refutations"
    else pure []
  let id ← dctStr dct "id"
  let logs ← if dctHas dct "logs" then dctLogs dct "logs" else pure []
  APRBMCProof.mk? id cfg init target logs bmc_depth (some bounded_nodes)
    subproof_ids (some node_refutations) env circularity admitted

/-- The caller-supplied decision procedures and backend oracles wired into
`APRProver`/`APRBMCProver`: the implication check of the backend
(`cterm_implies`), the optional terminal predicate, branch extractor and
abstraction function, the backend `extend` call (which, per the spec,
appends successor structure to the graph and merges emitted log entries),
and the `same_loop` predicate of the BMC prover. -/
structure Strategies where
  cterm_implies : CTerm → CTerm → Option CSubst
  is_terminalF : Option (CTerm → Bool)
  extract_branchesF : Option (CTerm → List KInner)
  abstract_nodeF : Option (CTerm → CTerm)
  extendF : KCFG → Node → List (Nat × List LogEntry) → KCFG × List (Nat × List LogEntry)
  same_loop : CTerm → CTerm → Bool

/-- `APRProver._check_terminal` (without its terminal-marking side effect):
whether the supplied terminal predicate exists and accepts the node. -/
def termCheck (S : Strategies) (curr : Node) : Bool :=
  match S.is_terminalF with
  | some f => f curr.cterm
  | none => false

/-- `APRProver._check_abstract` (the decision part): the abstracted cterm
when an abstraction function exists and produces a different cterm. -/
def abstractResult (S : Strategies) (curr : Node) : Option CTerm :=
  match S.abstract_nodeF with
  | none => none
  | some f =>
    let newc := f curr.cterm
    if newc == curr.cterm then none else some newc

/-- The five actions of one `APRProver.advance_proof` iteration. -/
inductive PAction where
  | subsume
  | markTerminal
  | abstractCover
  | heuristicSplit
  | extendStep
deriving DecidableEq, Repr

/-- The body of one `APRProver.advance_proof` iteration on the current node
`curr`: the five checks in source order; `none` models the crash of
`kcfg.node(target)` when the target node is missing. -/
def APRProverStepAt (S : Strategies) (p : APRProof) (curr : Node) :
    Option (PAction × APRProof) :=
  match p.kcfg.node p.target with
  | none => none
  | some target_node =>
    match S.cterm_implies curr.cterm target_node.cterm with
    | some csubst =>
      some (PAction.subsume, { p with kcfg := p.kcfg.create_cover curr target_node csubst })
    | none =>
      if termCheck S curr then some (PAction.markTerminal, p.add_terminal curr.id)
      else
        match abstractResult S curr with
        | some newc =>
          let gn := p.kcfg.create_node newc
          some (PAction.abstractCover, { p with kcfg := gn.1.create_cover curr gn.2 ⟨[], []⟩ })
        | none =>
          let doExtend := fun (_ : Unit) =>
            let gl := S.extendF p.kcfg curr p.logs
            some (PAction.extendStep, { p with kcfg := gl.1, logs := gl.2 })
          match S.extract_branchesF with
          | some ext =>
            if (p.kcfg.splitsInto curr.id).length == 0 then
              let branches := ext curr.cterm
              if branches.length > 0 then
                some (PAction.heuristicSplit,
                  { p with kcfg := p.kcfg.split_on_constraints curr branches })
              else doExtend ()
            else doExtend ()
          | none => doExtend ()

/-- The outcome of one turn of the `advance_proof` while loop. -/
inductive StepResult where
  | done
  | crashed
  | stepped (a : PAction) (p : APRProof)
deriving DecidableEq, Repr

/-- One turn of `APRProver.advance_proof`: exit when no leaf is pending,
else run the iteration body on the first pending leaf. -/
def APRProverStep (S : Strategies) (p : APRProof) : StepResult :=
  match p.pending with
  | [] => StepResult.done
  | curr :: _ =>
    match APRProverStepAt S p curr with
    | none => StepResult.crashed
    | some (a, p') => StepResult.stepped a p'

/-- The action selected by one turn, if any. -/
def StepResult.action : StepResult → Option PAction
  | .stepped a _ => some a
  | _ => none

/-- Whether the iteration budget stops the loop
(`max_iterations is not None and max_iterations <= iterations`). -/
def budgetReached (m? : Option Nat) (iterations : Nat) : Bool :=
  match m? with
  | some m => decide (m ≤ iterations)
  | none => false

/-- `APRProver.advance_proof`: the while loop, with explicit fuel (`none`
models fuel exhaustion or a crashed iteration); returns the final proof and
the number of iterations performed. -/
def advanceLoop (S : Strategies) (m? : Option Nat) :
    Nat → Nat → APRProof → Option (APRProof × Nat)
  | 0, _, _ => none
  | fuel + 1, iterations, p =>
    match p.pending with
    | [] => some (p, iterations)
    | curr :: _ =>
      if budgetReached m? iterations then some (p, iterations)
      else
        match APRProverStepAt S p curr with
        | none => none
        | some (_, p') => advanceLoop S m? fuel (iterations + 1) p'

/-- `APRProver.construct_node_refutation`: `Except.ok none` models the
explicit `return None` failures; `Except.error` models the crashes
(`single` on a non-singleton path list, indexing `targets[0]` or
`constraints[0]` out of range, the `Split` type assertion). -/
def construct_node_refutation (p : APRProof) (node : Node) :
    Except PyErr (Option RefutationProof) := do
  let path ← match p.kcfg.paths_between p.init node.id with
    | [pa] => pure pa
    | _ => throw PyErr.singleError
  let branches_on_path := path.reverse.filter Successor.isBranch
  match branches_on_path with
  | [] => pure none
  | closest_branch :: _ =>
    match closest_branch with
    | Successor.ndbranch _ _ => pure none
    | Successor.split source brs =>
      match brs with
      | [] => throw PyErr.indexError
      | (_, csubst) :: _ =>
        if csubst.subst.length > 0 then pure none
        else if csubst.constraints.length > 1 then pure none
        else
          let pre_split_constraints := source.cterm.constraints.map
            (fun c => mlEquals TRUE (ml_pred_to_bool c) BOOL)
          match csubst.constraints with
          | [] => throw PyErr.indexError
          | c :: _ =>
            pure (some
              { id := p.get_refutation_id node.id, sort := BOOL,
                pre_constraints := pre_split_constraints,
                last_constraint := mlEquals TRUE (ml_pred_to_bool c) BOOL,
                status := ProofStatus.pending })
    | _ => throw PyErr.assertSplit

/-- The state of an `APRBMCProver`: its proof and the `_checked_nodes`
bookkeeping list. -/
structure BMCState where
  proof : APRBMCProof
  checked_nodes : List Nat
deriving DecidableEq, Repr

/-- The delegated base loop as run by `APRBMCProver`: identical to
`advanceLoop` except that, through Python's dynamic dispatch,
`self.proof.pending` is the overridden `APRBMCProof.pending`. -/
def advanceLoopB (S : Strategies) (m? : Option Nat) :
    Nat → Nat → APRBMCProof → Option (APRBMCProof × Nat)
  | 0, _, _ => none
  | fuel + 1, iterations, p =>
    match p.pending with
    | [] => some (p, iterations)
    | curr :: _ =>
      if budgetReached m? iterations then some (p, iterations)
      else
        match APRProverStepAt S p.toAPRProof curr with
        | none => none
        | some (_, q) =>
          advanceLoopB S m? fuel (iterations + 1) { p with toAPRProof := q }

/-- `_prior_loops` of `APRBMCProver.advance_proof`: the sources along the
shortest init-to-leaf path judged the same loop as the leaf. -/
def priorLoopsRaw (S : Strategies) (path : List Successor) (f : Node) : List Nat :=
  (path.filter (fun succ => S.same_loop succ.src.cterm f.cterm)).map (fun succ => succ.src.id)

/-- The dedup fold of `APRBMCProver.advance_proof`: drop a candidate prior
loop head at zero depth from the leaf or from an already-accepted head. -/
def dedupPriorLoops (g : KCFG) (fid : Nat) (raw : List Nat) : List Nat :=
  raw.foldl (fun prior_loops pl =>
    if g.zero_depth_between pl fid ||
        prior_loops.any (fun q => g.zero_depth_between pl q) then prior_loops
    else prior_loops ++ [pl]) []

/-- The per-leaf BMC bookkeeping: skip already-checked leaves, record the
leaf as checked, and mark it bounded when its distinct prior-loop-head
count exceeds `bmc_depth`.  `none` models the `assert` failure of
`shortest_path_to` when no path exists. -/
def bookkeepOne (S : Strategies) (st : BMCState) (f : Node) : Option BMCState :=
  if st.checked_nodes.contains f.id then some st
  else
    match st.proof.toAPRProof.shortest_path_to f.id with
    | none => none
    | some path =>
      let st1 : BMCState := { st with checked_nodes := st.checked_nodes ++ [f.id] }
      let prior_loops := dedupPriorLoops st.proof.kcfg f.id (priorLoopsRaw S path f)
      if prior_loops.length > st.proof.bmc_depth then
        some { st1 with proof := st1.proof.add_bounded f.id }
      else some st1

/-- The bookkeeping pass over all currently-pending leaves (the pending
list is computed once, before any leaf is marked bounded, as in the
source's `for f in self.proof.pending`). -/
def bmcBookkeepAll (S : Strategies) (st : BMCState) : Option BMCState :=
  st.proof.pending.foldlM (bookkeepOne S) st

/-- One iteration of the `APRBMCProver.advance_proof` while loop: the
bookkeeping pass followed by the delegated base call with
`max_iterations=1`; returns the new state and the number of base
iterations the delegate performed. -/
def bmcStep (S : Strategies) (fuel : Nat) (st : BMCState) : Option (BMCState × Nat) :=
  match bmcBookkeepAll S st with
  | none => none
  | some st' =>
    match advanceLoopB S (some 1) fuel 0 st'.proof with
    | none => none
    | some (p', n) => some ({ st' with proof := p' }, n)

/-- `APRBMCProver.advance_proof`: the outer while loop with explicit
fuel; returns the final state and the number of outer iterations. -/
def bmcAdvanceLoop (S : Strategies) (m? : Option Nat) :
    Nat → Nat → BMCState → Option (BMCState × Nat)
  | 0, _, _ => none
  | fuel + 1, iterations, st =>
    match st.proof.pending with
    | [] => some (st, iterations)
    | _ :: _ =>
      if budgetReached m? iterations then some (st, iterations)
      else
        match bmcStep S fuel st with
        | none => none
        | some (st', _) => bmcAdvanceLoop S m? fuel (iterations + 1) st'

/-- A sample cterm keyed by a number (used in concrete instances). -/
def sampleCT (n : Nat) : CTerm := ⟨KInner.kvar (toString n), []⟩

/-- A sample node keyed by a number. -/
def sampleNode (n : Nat) : Node := ⟨n, sampleCT n⟩

/-- A sample refutation sub-proof. -/
def sampleRefutation (id : String) : RefutationProof :=
  ⟨id, BOOL, [], TRUE, ProofStatus.pending⟩

/-- The concrete APRBMCProof for C2: node 3 is a leaf that is terminal and
also refuted. -/
def c2BMCProof : APRBMCProof :=
  { id := "c2", admitted := false, subproof_ids := ["r"],
    subproofsLoaded := [("r", SubProof.refutationSub (sampleRefutation "r"))],
    kcfg := { nodes := [sampleNode 1, sampleNode 2, sampleNode 3],
              succs := [Successor.edge (sampleNode 1) (sampleNode 3) 1 []],
              stuck_marks := [], spathTab := [], pathsTab := [], zeroDepthTab := [] },
    init := 1, target := 2, terminal_nodes := [3],
    node_refutations := [(3, sampleRefutation "r")], logs := [],
    circularity := false, bmc_depth := 1, bounded_nodes := [] }

/-- C2, counterexample: in `APRBMCProof`, a refuted leaf (here a terminal
one) IS failing: `is_failing` of the BMC subclass does not exclude refuted
leaves, contradicting the claim that a refuted leaf is never failing
"equally in APRBMCProof". -/
theorem c2_counterexample :
    c2BMCProof.toAPRProof.is_refuted 3 = true ∧
    c2BMCProof.kcfg.is_leaf 3 = true ∧
    APRBMCProof.is_failing c2BMCProof 3 = true := by decide

/-- C2 (amended): in `APRProof`, a leaf with an associated RefutationProof
is never failing; in `APRBMCProof` the override drops the refuted
exclusion, so a refuted leaf that is a leaf and neither pending nor the
target nor bounded (for example a refuted terminal leaf) is failing. -/
theorem c2_refuted_vs_failing :
    (∀ (p : APRProof) (n : Nat), p.is_refuted n = true → p.is_failing n = false) ∧
    (∀ (p : APRBMCProof) (n : Nat), p.kcfg.is_leaf n = true →
      p.toAPRProof.is_refuted n = true → p.toAPRProof.is_terminal n = true →
      p.toAPRProof.is_target n = false → p.is_bounded n = false →
      p.is_failing n = true) := by
  constructor
  · intro p n h
    simp [APRProof.is_failing, h]
  · intro p n hleaf href hterm htgt hbnd
    simp [APRBMCProof.is_failing, APRBMCProof.is_pending, hleaf, hterm, htgt, hbnd]

/-- C2, witness: the amended theorem applied to the concrete proof. -/
theorem c2_witness :
    (c2BMCProof.toAPRProof.is_refuted 3 = true ∧
     APRProof.is_failing c2BMCProof.toAPRProof 3 = false) ∧
    APRBMCProof.is_failing c2BMCProof 3 = true :=
  ⟨⟨by decide, c2_refuted_vs_failing.1 c2BMCProof.toAPRProof 3 (by decide)⟩,
   c2_refuted_vs_failing.2 c2BMCProof 3 (by decide) (by decide) (by decide)
     (by decide) (by decide)⟩

/-- The concrete APRProof for C3: the freshly created graph (init and
target only, no successors) plus a disconnected leaf 3 marked both
terminal and refuted. -/
def c3Proof : APRProof :=
  { id := "c3", admitted := false, subproof_ids := ["r"],
    subproofsLoaded := [("r", SubProof.refutationSub (sampleRefutation "r"))],
    kcfg := { nodes := [sampleNode 1, sampleNode 2, sampleNode 3], succs := [],
              stuck_marks := [], spathTab := [], pathsTab := [], zeroDepthTab := [] },
    init := 1, target := 2, terminal_nodes := [3],
    node_refutations := [(3, sampleRefutation "r")], logs := [],
    circularity := false }

/-- C3, counterexample: the categories are not mutually exclusive and do
not follow the claimed priority order: the resolved init node, a leaf, is
classified pending (the code has no init category and `is_pending` does
not exclude the init node), and one leaf can be terminal and refuted at
the same time. -/
theorem c3_counterexample :
    c3Proof.is_init 1 = true ∧ c3Proof.is_pending 1 = true ∧
    c3Proof.kcfg.is_leaf 3 = true ∧ c3Proof.is_terminal 3 = true ∧
    c3Proof.is_refuted 3 = true := by decide

/-- C3 (amended): the only classification guarantees of the code are:
`pending` excludes terminal, stuck, target and refuted (BMC: terminal,
stuck, bounded and target); `failing` excludes pending, target and refuted
(BMC: pending, target and bounded); and every leaf is pending, target,
refuted or failing (BMC: pending, target, bounded or failing).  There is
no init category, and the raw predicates may overlap on one leaf. -/
theorem c3_leaf_classification :
    (∀ (p : APRProof) (n : Nat), p.is_pending n = true →
       p.is_terminal n = false ∧ p.kcfg.is_stuck n = false ∧
       p.is_target n = false ∧ p.is_refuted n = false) ∧
    (∀ (p : APRProof) (n : Nat), p.is_failing n = true →
       p.is_pending n = false ∧ p.is_target n = false ∧ p.is_refuted n = false) ∧
    (∀ (p : APRProof) (n : Nat), p.kcfg.is_leaf n = true →
       p.is_pending n = true ∨ p.is_target n = true ∨ p.is_refuted n = true ∨
       p.is_failing n = true) ∧
    (∀ (p : APRBMCProof) (n : Nat), p.is_pending n = true →
       p.toAPRProof.is_terminal n = false ∧ p.kcfg.is_stuck n = false ∧
       p.is_bounded n = false ∧ p.toAPRProof.is_target n = false) ∧
    (∀ (p : APRBMCProof) (n : Nat), p.is_failing n = true →
       p.is_pending n = false ∧ p.toAPRProof.is_target n = false ∧
       p.is_bounded n = false) ∧
    (∀ (p : APRBMCProof) (n : Nat), p.kcfg.is_leaf n = true →
       p.is_pending n = true ∨ p.toAPRProof.is_target n = true ∨
       p.is_bounded n = true ∨ p.is_failing n = true) := by
  refine ⟨?_, ?_, ?_, ?_, ?_, ?_⟩
  · intro p n h
    simp only [APRProof.is_pending, Bool.and_eq_true, Bool.not_eq_true',
      Bool.or_eq_false_iff] at h
    exact ⟨h.2.1.1.1, h.2.1.1.2, h.2.1.2, h.2.2⟩
  · intro p n h
    simp only [APRProof.is_failing, Bool.and_eq_true, Bool.not_eq_true',
      Bool.or_eq_false_iff] at h
    exact ⟨h.2.1.1, h.2.1.2, h.2.2⟩
  · intro p n hleaf
    cases hp : p.is_pending n with
    | true => exact Or.inl rfl
    | false =>
      cases ht : p.is_target n with
      | true => exact Or.inr (Or.inl rfl)
      | false =>
        cases hr : p.is_refuted n with
        | true => exact Or.inr (Or.inr (Or.inl rfl))
        | false =>
          refine Or.inr (Or.inr (Or.inr ?_))
          simp [APRProof.is_failing, hleaf, hp, ht, hr]
  · intro p n h
    simp only [APRBMCProof.is_pending, Bool.and_eq_true, Bool.not_eq_true',
      Bool.or_eq_false_iff] at h
    exact ⟨h.2.1.1.1, h.2.1.1.2, h.2.1.2, h.2.2⟩
  · intro p n h
    simp only [APRBMCProof.is_failing, Bool.and_eq_true, Bool.not_eq_true',
      Bool.or_eq_false_iff] at h
    exact ⟨h.2.1.1, h.2.1.2, h.2.2⟩
  · intro p n hleaf
    cases hp : p.is_pending n with
    | true => exact Or.inl rfl
    | false =>
      cases ht : p.toAPRProof.is_target n with
      | true => exact Or.inr (Or.inl rfl)
      | false =>
        cases hb : p.is_bounded n with
        | true => exact Or.inr (Or.inr (Or.inl rfl))
        | false =>
          refine Or.inr (Or.inr (Or.inr ?_))
          simp [APRBMCProof.is_failing, hleaf, hp, ht, hb]

/-- C3, witness: the amended theorem applied to the concrete proof. -/
theorem c3_witness :
    (c3Proof.is_pending 1 = true ∧ c3Proof.is_target 1 = false ∧
     c3Proof.is_refuted 1 = false) ∧
    (c3Proof.kcfg.is_leaf 3 = true ∧
     (c3Proof.is_pending 3 = true ∨ c3Proof.is_target 3 = true ∨
      c3Proof.is_refuted 3 = true ∨ c3Proof.is_failing 3 = true)) :=
  ⟨⟨by decide, (c3_leaf_classification.1 c3Proof 1 (by decide)).2.2.1,
    (c3_leaf_classification.1 c3Proof 1 (by decide)).2.2.2⟩,
   ⟨by decide, c3_leaf_classification.2.2.1 c3Proof 3 (by decide)⟩⟩

/-- The derived sub-proof status is FAILED exactly when some loaded
sub-proof is FAILED. -/
theorem subStatusFailedEq (p : APRProof) :
    (p.subproofs_status == ProofStatus.failed) =
      p.subproofsLoaded.any (fun e => e.2.subStatus == ProofStatus.failed) := by
  unfold APRProof.subproofs_status
  cases haf : p.subproofsLoaded.any (fun e => e.2.subStatus == ProofStatus.failed) with
  | true => simp [haf]
  | false =>
    simp only [haf, Bool.false_eq_true, if_false]
    split <;> rfl

/-- The derived sub-proof status is PENDING exactly when no loaded
sub-proof is FAILED and some loaded sub-proof is PENDING. -/
theorem subStatusPendingEq (p : APRProof) :
    (p.subproofs_status == ProofStatus.pending) =
      (!(p.subproofsLoaded.any (fun e => e.2.subStatus == ProofStatus.failed)) &&
        p.subproofsLoaded.any (fun e => e.2.subStatus == ProofStatus.pending)) := by
  unfold APRProof.subproofs_status
  cases haf : p.subproofsLoaded.any (fun e => e.2.subStatus == ProofStatus.failed) with
  | true => simp [haf]
  | false =>
    simp only [haf, Bool.false_eq_true, if_false, Bool.not_false, Bool.true_and]
    cases hap : p.subproofsLoaded.any (fun e => e.2.subStatus == ProofStatus.pending) with
    | true => simp [hap]
    | false => simp [hap]

/-- C4: the status derivation: PASSED unconditionally when admitted;
otherwise FAILED iff some leaf is failing or some sub-proof is FAILED;
otherwise PENDING iff some leaf is pending or some sub-proof is PENDING;
otherwise PASSED. -/
theorem c4_status_derivation :
    (∀ p : APRProof, p.admitted = true → p.status = ProofStatus.passed) ∧
    (∀ p : APRProof, p.admitted = false →
      ((p.status = ProofStatus.failed ↔ p.failing ≠ [] ∨
          p.subproofsLoaded.any (fun e => e.2.subStatus == ProofStatus.failed) = true) ∧
       (p.status = ProofStatus.pending ↔
          ¬(p.failing ≠ [] ∨
            p.subproofsLoaded.any (fun e => e.2.subStatus == ProofStatus.failed) = true) ∧
          (p.pending ≠ [] ∨
            p.subproofsLoaded.any (fun e => e.2.subStatus == ProofStatus.pending) = true)) ∧
       (p.status = ProofStatus.passed ↔
          ¬(p.failing ≠ [] ∨
            p.subproofsLoaded.any (fun e => e.2.subStatus == ProofStatus.failed) = true) ∧
          ¬(p.pending ≠ [] ∨
            p.subproofsLoaded.any (fun e => e.2.subStatus == ProofStatus.pending) = true)))) := by
  constructor
  · intro p h
    simp [APRProof.status, h]
  · intro p h
    have hsf := subStatusFailedEq p
    have hsp := subStatusPendingEq p
    unfold APRProof.status
    rw [h]
    by_cases hf : p.failing = [] <;> by_cases hp : p.pending = [] <;>
      cases haf : p.subproofsLoaded.any (fun e => e.2.subStatus == ProofStatus.failed) <;>
      cases hap : p.subproofsLoaded.any (fun e => e.2.subStatus == ProofStatus.pending) <;>
      rw [haf] at hsf <;> rw [haf, hap] at hsp <;>
      simp [hsf, hsp, hf, hp, haf, hap, List.length_pos]

/-- The concrete APRProof for the C4 witness: not admitted, no failing or
pending leaf of its own, but one FAILED sub-proof. -/
def c4Proof : APRProof :=
  { id := "c4", admitted := false, subproof_ids := ["s"],
    subproofsLoaded := [("s", SubProof.aprSub "s" ProofStatus.failed)],
    kcfg := { nodes := [sampleNode 1, sampleNode 2], succs := [],
              stuck_marks := [1], spathTab := [], pathsTab := [], zeroDepthTab := [] },
    init := 1, target := 2, terminal_nodes := [], node_refutations := [],
    logs := [], circularity := false }

/-- C4, witness: the derivation theorem applied to the concrete proof
whose only negative evidence is a FAILED sub-proof. -/
theorem c4_witness :
    c4Proof.admitted = false ∧ c4Proof.status = ProofStatus.failed :=
  ⟨rfl, ((c4_status_derivation.2 c4Proof rfl).1).mpr (Or.inr (by decide))⟩

/-- `singletonOrNone` is invariant under permutation. -/
theorem singletonOrNone_perm {ms1 ms2 : List String} (hp : ms1.Perm ms2) :
    singletonOrNone ms1 = singletonOrNone ms2 := by
  match ms1, ms2 with
  | [], ms2 =>
    have h2 := hp.symm.eq_nil
    subst h2; rfl
  | [a], ms2 =>
    have h2 := List.perm_singleton.mp hp.symm
    subst h2; rfl
  | a :: b :: t, [] => exact absurd hp.length_eq (by simp)
  | a :: b :: t, [c] => exact absurd hp.length_eq (by simp)
  | a :: b :: t, c :: d :: u => rfl

/-- `meetFromCommon` is invariant under permutation of the common-subsort
set. -/
theorem meetFromCommon_perm (k : KompiledKore) {c1 c2 : List String}
    (hp : c1.Perm c2) : k.meetFromCommon c1 = k.meetFromCommon c2 := by
  have hnr : (k.nrSubsorts c1).Perm (k.nrSubsorts c2) := hp.map _
  have hmax : ((k.nrSubsorts c1).map (·.2)).foldl max 0 =
      ((k.nrSubsorts c2).map (·.2)).foldl max 0 := (hnr.map _).foldl_eq 0
  have hemp : c1.isEmpty = c2.isEmpty := by
    have := hp.length_eq
    cases c1 <;> cases c2 <;> simp_all
  unfold KompiledKore.meetFromCommon
  rw [hemp, hmax]
  cases he : c2.isEmpty with
  | true => rfl
  | false =>
    simp only [Bool.false_eq_true, if_false]
    exact singletonOrNone_perm ((hnr.filter _).map _)

/-- C9 (amended): `meet_sorts(a, top) = a` holds for every sort and table;
commutativity `meet_sorts(a, b) = meet_sorts(b, a)` holds provided the
subsort relation is antisymmetric (no two distinct sorts are mutual
subsorts), which any acyclic set of subsort declarations satisfies. -/
theorem c9_meet_sorts :
    (∀ (k : KompiledKore) (a : String), k.meet_sorts a topSort = some a) ∧
    (∀ (k : KompiledKore) (a b : String),
      (∀ x y, k.is_subsort x y = true → k.is_subsort y x = true → x = y) →
      k.meet_sorts a b = k.meet_sorts b a) := by
  constructor
  · intro k a
    have h : k.is_subsort a topSort = true := by
      unfold KompiledKore.is_subsort
      by_cases ha : a = topSort <;> simp [ha]
    unfold KompiledKore.meet_sorts
    simp [h]
  · intro k a b hanti
    cases h1 : k.is_subsort a b with
    | true =>
      cases h2 : k.is_subsort b a with
      | true =>
        obtain rfl := hanti a b h1 h2
        rfl
      | false =>
        unfold KompiledKore.meet_sorts
        simp [h1, h2]
    | false =>
      cases h2 : k.is_subsort b a with
      | true =>
        unfold KompiledKore.meet_sorts
        simp [h1, h2]
      | false =>
        unfold KompiledKore.meet_sorts
        simp only [h1, h2, Bool.false_eq_true, if_false]
        apply meetFromCommon_perm
        apply (List.perm_ext_iff_of_nodup
          ((List.nodup_dedup _).filter _) ((List.nodup_dedup _).filter _)).mpr
        intro x
        simp only [List.mem_filter, List.mem_dedup]
        constructor
        · rintro ⟨hx1, hx2⟩
          refine ⟨by simpa using hx2, by simpa using hx1⟩
        · rintro ⟨hx1, hx2⟩
          refine ⟨by simpa using hx2, by simpa using hx1⟩

/-- The cyclic subsort table for the C9 counterexample: `a` and `b` are
each registered as a subsort of the other. -/
def c9Cyclic : KompiledKore := ⟨[("a", ["b"]), ("b", ["a"])]⟩

/-- C9, counterexample: on a table declaring two distinct sorts as mutual
subsorts, both meets are defined yet differ, so `meet_sorts` is not
commutative wherever defined. -/
theorem c9_counterexample :
    c9Cyclic.meet_sorts "a" "b" = some "a" ∧
    c9Cyclic.meet_sorts "b" "a" = some "b" ∧
    c9Cyclic.meet_sorts "a" "b" ≠ c9Cyclic.meet_sorts "b" "a" := by decide

/-- Over the empty subsort table, `is_subsort u v` holds exactly when
`u = v` or `v` is the top sort. -/
theorem emptyTableSubsort (u v : String) :
    KompiledKore.is_subsort ⟨[]⟩ u v = (u == v || v == topSort) := by
  unfold KompiledKore.is_subsort KompiledKore.tget
  by_cases h1 : u = v
  · simp [h1]
  · by_cases h2 : v = topSort
    · simp [h1, h2]
    · by_cases h3 : u = topSort
      · subst h3; simp [h1, h2]
      · simp [h1, h2, h3]

/-- C9, witness: the amended theorem applied at a concrete table (the empty
table, whose subsort relation is antisymmetric) and concrete sorts. -/
theorem c9_witness :
    KompiledKore.meet_sorts ⟨[]⟩ "Int" topSort = some "Int" ∧
    KompiledKore.meet_sorts ⟨[]⟩ "Int" "Bool" =
      KompiledKore.meet_sorts ⟨[]⟩ "Bool" "Int" :=
  ⟨c9_meet_sorts.1 ⟨[]⟩ "Int",
   c9_meet_sorts.2 ⟨[]⟩ "Int" "Bool" (fun x y hxy hyx => by
     rw [emptyTableSubsort] at hxy hyx
     simp only [Bool.or_eq_true, beq_iff_eq] at hxy hyx
     rcases hxy with h | h
     · exact h
     · rcases hyx with h' | h'
       · exact h'.symm
       · rw [h, h'])⟩

/-- The sub-proof environment for C1: one refutation proof on disk. -/
def c1Env : List (String × SubProof) :=
  [("r", SubProof.refutationSub (sampleRefutation "r"))]

/-- The concrete APRProof for C1, with a non-empty node-refutation map,
non-empty logs and terminal nodes. -/
def c1Proof : APRProof :=
  { id := "c1", admitted := false, subproof_ids := ["r"],
    subproofsLoaded := c1Env,
    kcfg := { nodes := [sampleNode 1, sampleNode 2, sampleNode 3],
              succs := [Successor.edge (sampleNode 1) (sampleNode 3) 1 ["r1"]],
              stuck_marks := [], spathTab := [], pathsTab := [], zeroDepthTab := [] },
    init := 1, target := 2, terminal_nodes := [3],
    node_refutations := [(3, sampleRefutation "r")],
    logs := [(1, [⟨"rule1", [("X", "0")]⟩])], circularity := true }

/-- The concrete APRBMCProof for C1, with non-empty refutations and bounded
nodes. -/
def c1BMCProof : APRBMCProof :=
  { toAPRProof := c1Proof, bmc_depth := 2, bounded_nodes := [3] }

/-- C1: deserializing the serialized form does NOT restore the proof: the
serializer writes the refutation map under the key `node_refutations`, but
the deserializer only reads it when the key `node_refutation` (without the
final `s`) is present, so a non-empty map is silently restored as empty —
for APRProof and APRBMCProof alike.  In addition, `APRBMCProof.__init__`
takes no `terminal_nodes` argument and `APRBMCProof.from_dict` never reads
that key, so a BMC round trip also loses the terminal markings.  All other
fields round-trip. -/
theorem c1_roundtrip_loses_refutations :
    APRProof.from_dict c1Env c1Proof.dict =
      Except.ok { c1Proof with node_refutations := [] } ∧
    c1Proof.node_refutations ≠ [] ∧
    dctHas c1Proof.dict "node_refutations" = true ∧
    dctHas c1Proof.dict "node_refutation" = false ∧
    APRBMCProof.from_dict c1Env c1BMCProof.dict =
      Except.ok { c1BMCProof with node_refutations := [], terminal_nodes := [] } ∧
    c1BMCProof.toAPRProof.node_refutations ≠ [] ∧
    c1BMCProof.terminal_nodes ≠ [] ∧
    dctHas c1BMCProof.dict "node_refutations" = true ∧
    dctHas c1BMCProof.dict "node_refutation" = false :=
  ⟨rfl, by decide, by decide, by decide, rfl, by decide, by decide, by decide, by decide⟩

/-- The resolution loop of the constructor drops nothing: on success the
output holds the whole accumulator plus one entry per input pair. -/
theorem resolveRefutations_spec (loaded : List (String × SubProof))
    (nrs : List (Nat × String)) :
    ∀ (acc out : List (Nat × RefutationProof)),
      resolveRefutations loaded acc nrs = Except.ok out →
      out.length = acc.length + nrs.length ∧
      (∀ x ∈ acc, x ∈ out) ∧
      (∀ e ∈ nrs, ∃ r, (e.1, r) ∈ out) := by
  induction nrs with
  | nil =>
    intro acc out h
    simp only [resolveRefutations] at h
    cases h
    exact ⟨by simp, fun x hx => hx, by simp⟩
  | cons e rest ih =>
    intro acc out h
    simp only [resolveRefutations] at h
    cases hf : loaded.find? (fun l => l.1 == e.2) with
    | none => rw [hf] at h; cases h
    | some le =>
      rw [hf] at h
      obtain ⟨name, sp⟩ := le
      cases sp with
      | refutationSub r =>
        have hspec := ih (acc ++ [(e.1, r)]) out h
        refine ⟨?_, ?_, ?_⟩
        · rw [hspec.1]
          simp only [List.length_append, List.length_cons, List.length_nil]
          omega
        · intro x hx
          exact hspec.2.1 x (by simp [hx])
        · intro e' he'
          rcases List.mem_cons.mp he' with he' | he'
          · subst he'
            exact ⟨r, hspec.2.1 (e'.1, r) (by simp)⟩
          · exact hspec.2.2 e' he'
      | aprSub i st => cases h

/-- C8: constructing an APRProof whose node-refutation map references a
proof id not among the declared sub-proof ids fails with the ValueError
carrying exactly the violating ids (never silently dropped); on success,
every input entry is resolved into the refutation map. -/
theorem c8_refutation_validation :
    ∀ (id : String) (g : KCFG) (init target : Nat) (logs : List (Nat × List LogEntry))
      (nrs : List (Nat × String)) (tns : Option (List Nat)) (sids : List String)
      (env : List (String × SubProof)) (circ adm : Bool),
      (((nrs.map (fun e => e.2)).filter (fun v => !sids.contains v)).dedup ≠ [] →
        APRProof.mk? id g init target logs (some nrs) tns sids env circ adm =
          Except.error (PyErr.valueErrorRefutations
            (((nrs.map (fun e => e.2)).filter (fun v => !sids.contains v)).dedup))) ∧
      (∀ v : String,
        v ∈ ((nrs.map (fun e => e.2)).filter (fun v => !sids.contains v)).dedup ↔
          ((∃ e ∈ nrs, e.2 = v) ∧ v ∉ sids)) ∧
      (∀ p, APRProof.mk? id g init target logs (some nrs) tns sids env circ adm =
          Except.ok p →
        p.node_refutations.length = nrs.length ∧
        ∀ e ∈ nrs, ∃ r : RefutationProof, (e.1, r) ∈ p.node_refutations) := by
  intro id g init target logs nrs tns sids env circ adm
  refine ⟨?_, ?_, ?_⟩
  · intro hne
    have hempty : (((nrs.map (fun e => e.2)).filter
        (fun v => !sids.contains v)).dedup).isEmpty = false :=
      List.isEmpty_eq_false.mpr hne
    simp only [APRProof.mk?, hempty, Bool.false_eq_true, if_false]
    rfl
  · intro v
    constructor
    · intro hv
      simp only [List.mem_dedup, List.mem_filter] at hv
      obtain ⟨hvm, hvc⟩ := hv
      obtain ⟨e, he, hev⟩ := List.mem_map.mp hvm
      exact ⟨⟨e, he, hev⟩, by simpa using hvc⟩
    · rintro ⟨⟨e, he, hev⟩, hns⟩
      simp only [List.mem_dedup, List.mem_filter]
      refine ⟨List.mem_map.mpr ⟨e, he, hev⟩, ?_⟩
      simpa using hns
  · intro p hp
    cases hempty : (((nrs.map (fun e => e.2)).filter
        (fun v => !sids.contains v)).dedup).isEmpty with
    | false =>
      simp only [APRProof.mk?, hempty, Bool.false_eq_true, if_false] at hp
      cases hp
    | true =>
      simp only [APRProof.mk?, hempty, if_true] at hp
      cases hres : resolveRefutations (loadSubproofs env sids) [] nrs with
      | error err => rw [hres] at hp; cases hp
      | ok out =>
        rw [hres] at hp
        simp only [Except.bind, pure, Except.pure] at hp
        cases hp
        have hspec := resolveRefutations_spec (loadSubproofs env sids) nrs [] out hres
        refine ⟨?_, ?_⟩
        · exact (by simpa using hspec.1 : out.length = nrs.length)
        · intro e he
          obtain ⟨r, hr⟩ := hspec.2.2 e he
          exact ⟨r, hr⟩

/-- The sub-proof environment for the C8 witness. -/
def c8Env : List (String × SubProof) :=
  [("r", SubProof.refutationSub (sampleRefutation "r"))]

/-- The graph for the C8 witness. -/
def c8Graph : KCFG :=
  { nodes := [sampleNode 1, sampleNode 2, sampleNode 3], succs := [],
    stuck_marks := [], spathTab := [], pathsTab := [], zeroDepthTab := [] }

/-- C8, witness: the validation theorem applied to a construction whose
single refutation entry names the undeclared sub-proof id `bad`. -/
theorem c8_witness :
    (([((3 : Nat), "bad")].map (fun e => e.2)).filter
        (fun v => !(["r"].contains v))).dedup ≠ [] ∧
    APRProof.mk? "w" c8Graph 1 2 [] (some [(3, "bad")]) none ["r"] c8Env false false =
      Except.error (PyErr.valueErrorRefutations
        ((([((3 : Nat), "bad")].map (fun e => e.2)).filter
            (fun v => !(["r"].contains v))).dedup)) :=
  ⟨by decide,
   (c8_refutation_validation "w" c8Graph 1 2 [] [(3, "bad")] none ["r"] c8Env
     false false).1 (by decide)⟩

/-- C6 (amended): with a unique simple init-to-node path, the refutation
constructor returns the explicit failure `None` when the path holds no
Split/NDBranch, when the nearest branch is an NDBranch, or when the taken
Split branch has a non-empty substitution or more than one constraint; it
returns the RefutationProof built from the split source's path constraints
(as boolean equalities) and the taken branch's single constraint when that
branch has an empty substitution and exactly one constraint; but with an
empty substitution and zero constraints it raises (IndexError on
`csubst.constraints[0]`) instead of failing explicitly, and on a Split
with no recorded branch it raises on `targets[0]`. -/
theorem c6_construct_node_refutation :
    ∀ (p : APRProof) (node : Node) (path : List Successor),
      p.kcfg.paths_between p.init node.id = [path] →
      ((path.reverse.filter Successor.isBranch = [] →
          construct_node_refutation p node = Except.ok none) ∧
       (∀ src ts rest, path.reverse.filter Successor.isBranch =
            Successor.ndbranch src ts :: rest →
          construct_node_refutation p node = Except.ok none) ∧
       (∀ src rest, path.reverse.filter Successor.isBranch =
            Successor.split src [] :: rest →
          construct_node_refutation p node = Except.error PyErr.indexError) ∧
       (∀ src t0 cs brs rest, path.reverse.filter Successor.isBranch =
            Successor.split src ((t0, cs) :: brs) :: rest →
          (cs.subst ≠ [] → construct_node_refutation p node = Except.ok none) ∧
          (cs.subst = [] → cs.constraints.length > 1 →
            construct_node_refutation p node = Except.ok none) ∧
          (∀ c, cs.subst = [] → cs.constraints = [c] →
            construct_node_refutation p node = Except.ok (some
              { id := p.get_refutation_id node.id, sort := BOOL,
                pre_constraints := src.cterm.constraints.map
                  (fun c0 => mlEquals TRUE (ml_pred_to_bool c0) BOOL),
                last_constraint := mlEquals TRUE (ml_pred_to_bool c) BOOL,
                status := ProofStatus.pending })) ∧
          (cs.subst = [] → cs.constraints = [] →
            construct_node_refutation p node = Except.error PyErr.indexError))) := by
  intro p node path hpath
  refine ⟨?_, ?_, ?_, ?_⟩
  · intro hfil
    rw [List.filter_reverse] at hfil
    unfold construct_node_refutation
    rw [hpath]
    simp [hfil]
    try rfl
  · intro src ts rest hfil
    rw [List.filter_reverse] at hfil
    unfold construct_node_refutation
    rw [hpath]
    simp [hfil]
    try rfl
  · intro src rest hfil
    rw [List.filter_reverse] at hfil
    unfold construct_node_refutation
    rw [hpath]
    simp [hfil]
    try rfl
  · intro src t0 cs brs rest hfil
    rw [List.filter_reverse] at hfil
    refine ⟨?_, ?_, ?_, ?_⟩
    · intro hsub
      unfold construct_node_refutation
      rw [hpath]
      have hlen : cs.subst.length > 0 := List.length_pos.mpr hsub
      simp [hfil, hlen]
      try rfl
    · intro hsub hlen
      unfold construct_node_refutation
      rw [hpath]
      simp [hfil, hsub, hlen]
      try rfl
    · intro c hsub hcs
      unfold construct_node_refutation
      rw [hpath]
      simp [hfil, hsub, hcs]
      try rfl
    · intro hsub hcs
      unfold construct_node_refutation
      rw [hpath]
      simp [hfil, hsub, hcs]
      try rfl

/-- The zero-constraint split for the C6 counterexample: the branch taken
toward node 3 has an empty substitution and an empty constraint set. -/
def c6Split0 : Successor := Successor.split (sampleNode 1) [(sampleNode 3, ⟨[], []⟩)]

/-- The concrete proof for the C6 counterexample. -/
def c6Proof : APRProof :=
  { id := "c6", admitted := false, subproof_ids := [], subproofsLoaded := [],
    kcfg := { nodes := [sampleNode 1, sampleNode 2, sampleNode 3], succs := [c6Split0],
              stuck_marks := [], spathTab := [],
              pathsTab := [((1, 3), [[c6Split0]])], zeroDepthTab := [] },
    init := 1, target := 2, terminal_nodes := [], node_refutations := [], logs := [],
    circularity := false }

/-- C6, counterexample: the nearest branch is a Split whose taken branch
has an empty substitution and not more than one extra constraint (zero),
so by the claim the constructor should return a RefutationProof, or at
worst an explicit `None`; instead it crashes with an IndexError on
`csubst.constraints[0]`. -/
theorem c6_counterexample :
    c6Proof.kcfg.paths_between c6Proof.init 3 = [[c6Split0]] ∧
    [c6Split0].reverse.filter Successor.isBranch = [c6Split0] ∧
    construct_node_refutation c6Proof (sampleNode 3) = Except.error PyErr.indexError := by
  decide

/-- The split branch for the C6 witness: empty substitution, exactly one
constraint. -/
def c6wCS : CSubst := ⟨[], [KInner.kvar "b"]⟩

/-- The split source for the C6 witness, carrying one path constraint. -/
def c6wSrc : Node := ⟨1, ⟨KInner.kvar "cfg", [KInner.kvar "pc"]⟩⟩

/-- The split successor for the C6 witness. -/
def c6wSplit : Successor := Successor.split c6wSrc [(sampleNode 3, c6wCS)]

/-- The concrete proof for the C6 witness. -/
def c6wProof : APRProof :=
  { id := "c6w", admitted := false, subproof_ids := [], subproofsLoaded := [],
    kcfg := { nodes := [c6wSrc, sampleNode 2, sampleNode 3], succs := [c6wSplit],
              stuck_marks := [], spathTab := [],
              pathsTab := [((1, 3), [[c6wSplit]])], zeroDepthTab := [] },
    init := 1, target := 2, terminal_nodes := [], node_refutations := [], logs := [],
    circularity := false }

/-- C6, witness: the amended theorem applied to a one-constraint split,
yielding the refutation proof with the claimed premises and assertion. -/
theorem c6_witness :
    c6wProof.kcfg.paths_between c6wProof.init 3 = [[c6wSplit]] ∧
    construct_node_refutation c6wProof (sampleNode 3) = Except.ok (some
      { id := "c6w.node-infeasible-3", sort := BOOL,
        pre_constraints := [mlEquals TRUE (ml_pred_to_bool (KInner.kvar "pc")) BOOL],
        last_constraint := mlEquals TRUE (ml_pred_to_bool (KInner.kvar "b")) BOOL,
        status := ProofStatus.pending }) :=
  ⟨by decide,
   ((c6_construct_node_refutation c6wProof (sampleNode 3) [c6wSplit]
       (by decide)).2.2.2 c6wSrc (sampleNode 3) c6wCS [] [] (by decide)).2.2.1
     (KInner.kvar "b") (by decide) (by decide)⟩

/-- The priority characterization of the action fired by one
`advance_proof` iteration on current node `curr` with target node `tgt`:
subsumption first, then terminal marking, then abstraction, then the
heuristic split (needing an extractor, no split into the node, and a
nonempty discriminant set), else the backend extension. -/
def c5IterProp (S : Strategies) (p : APRProof) (curr tgt : Node) (a : PAction) : Prop :=
  (a = PAction.subsume ↔ (S.cterm_implies curr.cterm tgt.cterm).isSome = true) ∧
  (a = PAction.markTerminal ↔ S.cterm_implies curr.cterm tgt.cterm = none ∧
    termCheck S curr = true) ∧
  (a = PAction.abstractCover ↔ S.cterm_implies curr.cterm tgt.cterm = none ∧
    termCheck S curr = false ∧ (abstractResult S curr).isSome = true) ∧
  (a = PAction.heuristicSplit ↔ S.cterm_implies curr.cterm tgt.cterm = none ∧
    termCheck S curr = false ∧ abstractResult S curr = none ∧
    (∃ ext, S.extract_branchesF = some ext ∧ p.kcfg.splitsInto curr.id = [] ∧
      ext curr.cterm ≠ [])) ∧
  (a = PAction.extendStep ↔ S.cterm_implies curr.cterm tgt.cterm = none ∧
    termCheck S curr = false ∧ abstractResult S curr = none ∧
    ¬(∃ ext, S.extract_branchesF = some ext ∧ p.kcfg.splitsInto curr.id = [] ∧
      ext curr.cterm ≠ []))

/-- C5: one `advance_proof` turn finishes exactly when no leaf is pending;
otherwise it processes the first pending leaf and fires exactly one of the
five actions, chosen by the source's priority order (`c5IterProp`); and a
completed loop run with iteration budget `m` ends with no pending leaf or
with the budget reached. -/
theorem c5_prover_iteration :
    (∀ (S : Strategies) (p : APRProof),
      APRProverStep S p = StepResult.done ↔ p.pending = []) ∧
    (∀ (S : Strategies) (p : APRProof) (curr : Node) (rest : List Node) (tgt : Node)
       (a : PAction),
      p.pending = curr :: rest → p.kcfg.node p.target = some tgt →
      (APRProverStep S p).action = some a → c5IterProp S p curr tgt a) ∧
    (∀ (S : Strategies) (m fuel iterations : Nat) (p : APRProof)
       (res : APRProof × Nat),
      advanceLoop S (some m) fuel iterations p = some res →
      res.1.pending = [] ∨ m ≤ res.2) := by
  refine ⟨?_, ?_, ?_⟩
  · intro S p
    unfold APRProverStep
    cases hp : p.pending with
    | nil => simp
    | cons c cs =>
      cases hs : APRProverStepAt S p c <;> simp [hs]
  · intro S p curr rest tgt a hpend htgt hact
    have hstep : APRProverStep S p = (match APRProverStepAt S p curr with
        | none => StepResult.crashed
        | some (a, p') => StepResult.stepped a p') := by
      unfold APRProverStep
      rw [hpend]
    rw [hstep] at hact
    cases hsa : APRProverStepAt S p curr with
    | none =>
      rw [hsa] at hact
      simp [StepResult.action] at hact
    | some ap =>
      rw [hsa] at hact
      obtain ⟨a0, p0⟩ := ap
      simp only [StepResult.action, Option.some.injEq] at hact
      subst hact
      unfold APRProverStepAt at hsa
      rw [htgt] at hsa
      try dsimp only [] at hsa
      unfold c5IterProp
      cases him : S.cterm_implies curr.cterm tgt.cterm with
      | some cs =>
        rw [him] at hsa
        try dsimp only [] at hsa
        simp only [Option.some.injEq, Prod.mk.injEq] at hsa
        obtain ⟨ha, hp0⟩ := hsa
        subst ha
        simp [him]
      | none =>
        rw [him] at hsa
        try dsimp only [] at hsa
        cases hterm : termCheck S curr with
        | true =>
          simp only [hterm, if_true, Option.some.injEq, Prod.mk.injEq] at hsa
          obtain ⟨ha, hp0⟩ := hsa
          subst ha
          simp [him, hterm]
        | false =>
          simp only [hterm, Bool.false_eq_true, if_false] at hsa
          cases habs : abstractResult S curr with
          | some newc =>
            rw [habs] at hsa
            try dsimp only [] at hsa
            simp only [Option.some.injEq, Prod.mk.injEq] at hsa
            obtain ⟨ha, hp0⟩ := hsa
            subst ha
            simp [him, hterm, habs]
          | none =>
            rw [habs] at hsa
            try dsimp only [] at hsa
            cases hext : S.extract_branchesF with
            | none =>
              rw [hext] at hsa
              try dsimp only [] at hsa
              simp only [Option.some.injEq, Prod.mk.injEq] at hsa
              obtain ⟨ha, hp0⟩ := hsa
              subst ha
              simp [him, hterm, habs, hext]
            | some ext =>
              rw [hext] at hsa
              try dsimp only [] at hsa
              cases hsp : p.kcfg.splitsInto curr.id with
              | cons s ss =>
                rw [hsp] at hsa
                try dsimp only [] at hsa
                simp only [List.length_cons, List.length_nil, Nat.succ_ne_zero,
                  beq_iff_eq, if_false, Bool.false_eq_true, Option.some.injEq,
                  Prod.mk.injEq] at hsa
                obtain ⟨ha, hp0⟩ := hsa
                subst ha
                simp [him, hterm, habs, hext, hsp]
              | nil =>
                rw [hsp] at hsa
                try dsimp only [] at hsa
                cases hbr : ext curr.cterm with
                | nil =>
                  rw [hbr] at hsa
                  try dsimp only [] at hsa
                  simp only [List.length_cons, List.length_nil, beq_self_eq_true,
                    if_true, Nat.lt_irrefl, Nat.zero_lt_succ, if_false,
                    Option.some.injEq, Prod.mk.injEq] at hsa
                  obtain ⟨ha, hp0⟩ := hsa
                  subst ha
                  simp [him, hterm, habs, hext, hsp, hbr]
                | cons b bs =>
                  rw [hbr] at hsa
                  try dsimp only [] at hsa
                  simp only [List.length_cons, List.length_nil, beq_self_eq_true,
                    if_true, Nat.lt_irrefl, Nat.zero_lt_succ, if_false,
                    Option.some.injEq, Prod.mk.injEq] at hsa
                  obtain ⟨ha, hp0⟩ := hsa
                  subst ha
                  simp [him, hterm, habs, hext, hsp, hbr]
  · intro S m fuel
    induction fuel with
    | zero =>
      intro iterations p res h
      cases h
    | succ n ih =>
      intro iterations p res h
      unfold advanceLoop at h
      cases hp : p.pending with
      | nil =>
        rw [hp] at h
        cases h
        exact Or.inl hp
      | cons c cs =>
        rw [hp] at h
        cases hb : budgetReached (some m) iterations with
        | true =>
          simp only [hb, if_true] at h
          cases h
          right
          unfold budgetReached at hb
          exact of_decide_eq_true hb
        | false =>
          simp only [hb, Bool.false_eq_true, if_false] at h
          cases hstep : APRProverStepAt S p c with
          | none => rw [hstep] at h; cases h
          | some ap => rw [hstep] at h; exact ih (iterations + 1) ap.2 res h

/-- The strategies for the C5 witness: the backend implication check
always succeeds, no optional decision procedures, an extend oracle that
leaves the graph unchanged. -/
def c5wStrat : Strategies :=
  { cterm_implies := fun _ _ => some ⟨[], []⟩,
    is_terminalF := none,
    extract_branchesF := none,
    abstract_nodeF := none,
    extendF := fun g _ l => (g, l),
    same_loop := fun _ _ => false }

/-- The proof for the C5 witness: a fresh claim graph, init and target. -/
def c5wProof : APRProof :=
  { id := "c5", admitted := false, subproof_ids := [], subproofsLoaded := [],
    kcfg := { nodes := [sampleNode 1, sampleNode 2], succs := [],
              stuck_marks := [], spathTab := [], pathsTab := [], zeroDepthTab := [] },
    init := 1, target := 2, terminal_nodes := [], node_refutations := [], logs := [],
    circularity := false }

/-- The proof after the single subsumption iteration of the C5 witness. -/
def c5wProofAfter : APRProof :=
  { c5wProof with kcfg := { c5wProof.kcfg with
      succs := [Successor.cover (sampleNode 1) (sampleNode 2) ⟨[], []⟩] } }

/-- C5, witness: on the concrete proof the first (and only) pending leaf is
the init node, the subsumption action fires with its priority
characterization, and the budgeted loop ends with no pending leaves after
one iteration. -/
theorem c5_witness :
    c5wProof.pending = [sampleNode 1] ∧
    (APRProverStep c5wStrat c5wProof).action = some PAction.subsume ∧
    c5IterProp c5wStrat c5wProof (sampleNode 1) (sampleNode 2) PAction.subsume ∧
    advanceLoop c5wStrat (some 1) 3 0 c5wProof = some (c5wProofAfter, 1) ∧
    (c5wProofAfter.pending = [] ∨ 1 ≤ 1) :=
  ⟨by decide, by decide,
   c5_prover_iteration.2.1 c5wStrat c5wProof (sampleNode 1) [] (sampleNode 2)
     PAction.subsume (by decide) (by decide) (by decide),
   by decide,
   c5_prover_iteration.2.2 c5wStrat 1 3 0 c5wProof (c5wProofAfter, 1) (by decide)⟩

/-- The delegated base loop never touches the bounded-node list: only the
BMC bookkeeping calls `add_bounded`. -/
theorem advanceLoopB_bounded (S : Strategies) (m? : Option Nat) :
    ∀ (fuel iterations : Nat) (p : APRBMCProof) (res : APRBMCProof × Nat),
      advanceLoopB S m? fuel iterations p = some res →
      res.1.bounded_nodes = p.bounded_nodes ∧
      res.1.bmc_depth = p.bmc_depth := by
  intro fuel
  induction fuel with
  | zero => intro iterations p res h; cases h
  | succ n ih =>
    intro iterations p res h
    unfold advanceLoopB at h
    cases hp : p.pending with
    | nil =>
      rw [hp] at h
      cases h
      exact ⟨rfl, rfl⟩
    | cons c cs =>
      rw [hp] at h
      cases hb : budgetReached m? iterations with
      | true =>
        simp only [hb, if_true] at h
        cases h
        exact ⟨rfl, rfl⟩
      | false =>
        simp only [hb, Bool.false_eq_true, if_false] at h
        cases hstep : APRProverStepAt S p.toAPRProof c with
        | none => rw [hstep] at h; cases h
        | some ap =>
          rw [hstep] at h
          exact ih (iterations + 1) { p with toAPRProof := ap.2 } res h

/-- The effect of the per-leaf BMC bookkeeping: already-checked leaves are
skipped; a new leaf is recorded as checked and marked bounded exactly when
its distinct prior-loop-head count exceeds the bound. -/
theorem bookkeepOne_spec (S : Strategies) (st : BMCState) (f : Node) (st' : BMCState)
    (h : bookkeepOne S st f = some st') :
    st'.proof.toAPRProof = st.proof.toAPRProof ∧
    st'.proof.bmc_depth = st.proof.bmc_depth ∧
    (f.id ∈ st.checked_nodes → st' = st) ∧
    (f.id ∉ st.checked_nodes →
      st'.checked_nodes = st.checked_nodes ++ [f.id] ∧
      ∃ path, st.proof.toAPRProof.shortest_path_to f.id = some path ∧
        st'.proof.bounded_nodes =
          (if (dedupPriorLoops st.proof.kcfg f.id (priorLoopsRaw S path f)).length >
              st.proof.bmc_depth
           then st.proof.bounded_nodes ++ [f.id] else st.proof.bounded_nodes)) := by
  unfold bookkeepOne at h
  by_cases hc : f.id ∈ st.checked_nodes
  · have hcb : st.checked_nodes.contains f.id = true := by simpa using hc
    simp only [hcb, if_true] at h
    cases h
    exact ⟨rfl, rfl, fun _ => rfl, fun hn => absurd hc hn⟩
  · have hcb : st.checked_nodes.contains f.id = false := by simpa using hc
    simp only [hcb, Bool.false_eq_true, if_false] at h
    cases hsp : st.proof.toAPRProof.shortest_path_to f.id with
    | none => rw [hsp] at h; cases h
    | some path =>
      rw [hsp] at h
      dsimp only [] at h
      by_cases hlen : (dedupPriorLoops st.proof.kcfg f.id (priorLoopsRaw S path f)).length >
          st.proof.bmc_depth
      · rw [if_pos hlen] at h
        cases h
        refine ⟨rfl, rfl, fun hin => absurd hin hc, fun _ => ⟨rfl, path, rfl, ?_⟩⟩
        rw [if_pos hlen]
        rfl
      · rw [if_neg hlen] at h
        cases h
        refine ⟨rfl, rfl, fun hin => absurd hin hc, fun _ => ⟨rfl, path, rfl, ?_⟩⟩
        rw [if_neg hlen]

/-- The effect of the whole BMC bookkeeping pass over a leaf list: the base
proof is untouched, the checked set grows by exactly the ids of the list,
the bounded set grows only by previously-unchecked ids of the list, and a
previously-unchecked leaf ends up bounded exactly when its distinct
prior-loop-head count exceeds the bound. -/
theorem bookkeepFold_spec (S : Strategies) :
    ∀ (fs : List Node) (st st' : BMCState),
      List.foldlM (bookkeepOne S) st fs = some st' →
      st'.proof.toAPRProof = st.proof.toAPRProof ∧
      st'.proof.bmc_depth = st.proof.bmc_depth ∧
      (∀ i, i ∈ st'.checked_nodes ↔ i ∈ st.checked_nodes ∨ ∃ f ∈ fs, f.id = i) ∧
      (∀ i, i ∈ st.proof.bounded_nodes → i ∈ st'.proof.bounded_nodes) ∧
      (∀ i, i ∈ st'.proof.bounded_nodes →
        i ∈ st.proof.bounded_nodes ∨ ∃ f ∈ fs, f.id = i ∧ i ∉ st.checked_nodes) ∧
      ((fs.map (fun f => f.id)).Nodup →
        ∀ f ∈ fs, f.id ∉ st.checked_nodes →
        ∃ path, st.proof.toAPRProof.shortest_path_to f.id = some path ∧
          (f.id ∈ st'.proof.bounded_nodes ↔ f.id ∈ st.proof.bounded_nodes ∨
            (dedupPriorLoops st.proof.kcfg f.id (priorLoopsRaw S path f)).length >
              st.proof.bmc_depth)) := by
  intro fs
  induction fs with
  | nil =>
    intro st st' h
    simp only [List.foldlM_nil] at h
    cases h
    exact ⟨rfl, rfl, fun i => by simp, fun i hi => hi, fun i hi => Or.inl hi,
      fun _ f hf => absurd hf (List.not_mem_nil f)⟩
  | cons f fs ih =>
    intro st st' h
    simp only [List.foldlM_cons] at h
    cases h1 : bookkeepOne S st f with
    | none => rw [h1] at h; cases h
    | some st1 =>
      rw [h1] at h
      have h2 : List.foldlM (bookkeepOne S) st1 fs = some st' := h
      obtain ⟨hbase1, hdep1, hskip1, hnew1⟩ := bookkeepOne_spec S st f st1 h1
      obtain ⟨hbase2, hdep2, hchk2, hmon2, hbnd2, hspec2⟩ := ih st1 st' h2
      have hchkmon1 : ∀ i, i ∈ st.checked_nodes → i ∈ st1.checked_nodes := by
        intro i hi
        by_cases hin : f.id ∈ st.checked_nodes
        · rw [hskip1 hin]; exact hi
        · rw [(hnew1 hin).1]; exact List.mem_append_left _ hi
      have hchk1 : ∀ i, i ∈ st1.checked_nodes ↔ i ∈ st.checked_nodes ∨ i = f.id := by
        intro i
        by_cases hin : f.id ∈ st.checked_nodes
        · rw [hskip1 hin]
          constructor
          · exact Or.inl
          · rintro (hi | rfl)
            · exact hi
            · exact hin
        · rw [(hnew1 hin).1]
          simp [List.mem_append]
      have hbndmon1 : ∀ i, i ∈ st.proof.bounded_nodes → i ∈ st1.proof.bounded_nodes := by
        intro i hi
        by_cases hin : f.id ∈ st.checked_nodes
        · rw [hskip1 hin]; exact hi
        · obtain ⟨_, path, _, hbeq⟩ := hnew1 hin
          rw [hbeq]
          split
          · exact List.mem_append_left _ hi
          · exact hi
      have hbnd1 : ∀ i, i ∈ st1.proof.bounded_nodes →
          i ∈ st.proof.bounded_nodes ∨ (i = f.id ∧ f.id ∉ st.checked_nodes) := by
        intro i hi
        by_cases hin : f.id ∈ st.checked_nodes
        · rw [hskip1 hin] at hi; exact Or.inl hi
        · obtain ⟨_, path, _, hbeq⟩ := hnew1 hin
          rw [hbeq] at hi
          revert hi
          split
          · intro hi
            rcases List.mem_append.mp hi with hi | hi
            · exact Or.inl hi
            · exact Or.inr ⟨List.mem_singleton.mp hi, hin⟩
          · exact Or.inl
      refine ⟨hbase2.trans hbase1, hdep2.trans hdep1, ?_, ?_, ?_, ?_⟩
      · intro i
        rw [hchk2 i, hchk1 i]
        constructor
        · rintro ((hi | rfl) | ⟨g, hg, rfl⟩)
          · exact Or.inl hi
          · exact Or.inr ⟨f, List.mem_cons_self f fs, rfl⟩
          · exact Or.inr ⟨g, List.mem_cons_of_mem f hg, rfl⟩
        · rintro (hi | ⟨g, hg, rfl⟩)
          · exact Or.inl (Or.inl hi)
          · rcases List.mem_cons.mp hg with rfl | hg
            · exact Or.inl (Or.inr rfl)
            · exact Or.inr ⟨g, hg, rfl⟩
      · intro i hi
        exact hmon2 i (hbndmon1 i hi)
      · intro i hi
        rcases hbnd2 i hi with hi1 | ⟨g, hg, rfl, hnc1⟩
        · rcases hbnd1 i hi1 with hi0 | ⟨rfl, hnc⟩
          · exact Or.inl hi0
          · exact Or.inr ⟨f, List.mem_cons_self f fs, rfl, hnc⟩
        · refine Or.inr ⟨g, List.mem_cons_of_mem f hg, rfl, fun hc => hnc1 (hchkmon1 _ hc)⟩
      · intro hnd g hg hgnc
        have hndf : f.id ∉ fs.map (fun x => x.id) := by
          simp only [List.map_cons, List.nodup_cons] at hnd
          exact hnd.1
        have hndfs : (fs.map (fun x => x.id)).Nodup := by
          simp only [List.map_cons, List.nodup_cons] at hnd
          exact hnd.2
        rcases List.mem_cons.mp hg with rfl | hgfs
        · obtain ⟨hck1, path, hpath, hbeq⟩ := hnew1 hgnc
          refine ⟨path, hpath, ?_⟩
          constructor
          · intro hin'
            rcases hbnd2 _ hin' with hin1 | ⟨g', hg', hgid, hnc1⟩
            · rw [hbeq] at hin1
              revert hin1
              split
              · intro _
                right
                assumption
              · intro hin1
                exact Or.inl hin1
            · exact absurd (hgid ▸ List.mem_map_of_mem (fun x => x.id) hg') hndf
          · intro hor
            apply hmon2
            rw [hbeq]
            rcases hor with hin0 | hcnt
            · split
              · exact List.mem_append_left _ hin0
              · exact hin0
            · rw [if_pos hcnt]
              exact List.mem_append_right _ (List.mem_singleton.mpr rfl)
        · have hgne : g.id ≠ f.id := by
            intro heq
            exact hndf (heq ▸ List.mem_map_of_mem (fun x => x.id) hgfs)
          have hgnc1 : g.id ∉ st1.checked_nodes := by
            rw [hchk1]
            rintro (hc | hc)
            · exact hgnc hc
            · exact hgne hc
          obtain ⟨path, hpath, hiff⟩ := hspec2 hndfs g hgfs hgnc1
          rw [hbase1] at hpath
          have hkcfg1 : st1.proof.kcfg = st.proof.kcfg := by
            rw [hbase1]
          have hbmem : g.id ∈ st1.proof.bounded_nodes ↔ g.id ∈ st.proof.bounded_nodes := by
            by_cases hin : f.id ∈ st.checked_nodes
            · rw [hskip1 hin]
            · obtain ⟨_, path', _, hbeq⟩ := hnew1 hin
              rw [hbeq]
              split
              · simp [List.mem_append, hgne]
              · exact Iff.rfl
          refine ⟨path, hpath, ?_⟩
          rw [← hbmem, ← hkcfg1, ← hdep1]
          exact hiff

/-- A delegated run already at its iteration budget performs no further
iteration. -/
theorem advanceLoopB_at_budget (S : Strategies) (m : Nat) :
    ∀ (fuel : Nat) (p : APRBMCProof) (res : APRBMCProof × Nat),
      advanceLoopB S (some m) fuel m p = some res → res.2 = m := by
  intro fuel
  cases fuel with
  | zero => intro p res h; cases h
  | succ k =>
    intro p res h
    unfold advanceLoopB at h
    cases hp : p.pending with
    | nil => rw [hp] at h; cases h; rfl
    | cons c cs =>
      rw [hp] at h
      have hb : budgetReached (some m) m = true := by
        unfold budgetReached
        simp
      simp only [hb, if_true] at h
      cases h
      rfl

/-- A completed delegated run with `max_iterations=1` performs at most one
iteration, and exactly one iff a leaf was pending when it started. -/
theorem advanceLoopB_budget1 (S : Strategies) :
    ∀ (fuel : Nat) (p : APRBMCProof) (res : APRBMCProof × Nat),
      advanceLoopB S (some 1) fuel 0 p = some res →
      res.2 ≤ 1 ∧ (res.2 = 1 ↔ p.pending ≠ []) := by
  intro fuel p res h
  cases fuel with
  | zero => cases h
  | succ k =>
    unfold advanceLoopB at h
    cases hp : p.pending with
    | nil =>
      rw [hp] at h
      cases h
      refine ⟨by omega, ?_⟩
      simp [hp]
    | cons c cs =>
      rw [hp] at h
      have hb : budgetReached (some 1) 0 = false := by
        unfold budgetReached
        simp
      simp only [hb, Bool.false_eq_true, if_false] at h
      cases hstep : APRProverStepAt S p.toAPRProof c with
      | none => rw [hstep] at h; cases h
      | some ap =>
        rw [hstep] at h
        have hres := advanceLoopB_at_budget S 1 k _ res h
        refine ⟨by omega, ?_, fun _ => hres⟩
        intro _
        simp [hp]

/-- C7 (amended): one outer `APRBMCProver.advance_proof` iteration
bookkeeps exactly the currently-pending not-yet-checked leaves, marks such
a leaf bounded exactly when its deduplicated prior-loop-head count
strictly exceeds `bmc_depth`, and then delegates one base call with
`max_iterations=1`, which performs AT MOST one iteration — exactly one iff
a leaf is still pending after the bookkeeping (zero when the bookkeeping
bounded every pending leaf). -/
theorem c7_bmc_iteration :
    ∀ (S : Strategies) (fuel : Nat) (st st' : BMCState) (n : Nat),
      bmcStep S fuel st = some (st', n) →
      (∀ i, i ∈ st'.checked_nodes ↔
        i ∈ st.checked_nodes ∨ ∃ f ∈ st.proof.pending, f.id = i) ∧
      (∀ i, i ∈ st'.proof.bounded_nodes →
        i ∈ st.proof.bounded_nodes ∨
          ∃ f ∈ st.proof.pending, f.id = i ∧ i ∉ st.checked_nodes) ∧
      ((st.proof.pending.map (fun f => f.id)).Nodup →
        ∀ f ∈ st.proof.pending, f.id ∉ st.checked_nodes →
        ∃ path, st.proof.toAPRProof.shortest_path_to f.id = some path ∧
          (f.id ∈ st'.proof.bounded_nodes ↔ f.id ∈ st.proof.bounded_nodes ∨
            (dedupPriorLoops st.proof.kcfg f.id (priorLoopsRaw S path f)).length >
              st.proof.bmc_depth)) ∧
      n ≤ 1 ∧
      (∀ stb, bmcBookkeepAll S st = some stb → (n = 1 ↔ stb.proof.pending ≠ [])) := by
  intro S fuel st st' n h
  unfold bmcStep at h
  cases hb : bmcBookkeepAll S st with
  | none => rw [hb] at h; cases h
  | some stb =>
    rw [hb] at h
    dsimp only [] at h
    cases hd : advanceLoopB S (some 1) fuel 0 stb.proof with
    | none => rw [hd] at h; cases h
    | some pn =>
      rw [hd] at h
      obtain ⟨p', n'⟩ := pn
      dsimp only [] at h
      simp only [Option.some.injEq, Prod.mk.injEq] at h
      obtain ⟨hst', hn⟩ := h
      subst hn
      subst hst'
      have hfold := bookkeepFold_spec S st.proof.pending st stb hb
      have hdel := advanceLoopB_bounded S (some 1) fuel 0 stb.proof (p', n') hd
      have hbudget := advanceLoopB_budget1 S fuel stb.proof (p', n') hd
      obtain ⟨hbase, hdep, hchk, hmon, hbnd, hspec⟩ := hfold
      refine ⟨hchk, ?_, ?_, hbudget.1, ?_⟩
      · intro i hi
        exact hbnd i (hdel.1 ▸ hi)
      · intro hnd f hf hfc
        obtain ⟨path, hpath, hiff⟩ := hspec hnd f hf hfc
        exact ⟨path, hpath, by rw [show (⟨p', stb.checked_nodes⟩ :
          BMCState).proof.bounded_nodes = stb.proof.bounded_nodes from hdel.1]; exact hiff⟩
      · intro stb' hb'
        cases hb'
        exact hbudget.2

/-- Per outer BMC iteration: the checked set only grows, and the bounded
set grows only by ids of pending leaves that were not yet checked. -/
theorem bmcStep_checked (S : Strategies) (fuel : Nat) (st st1 : BMCState) (n1 : Nat)
    (h : bmcStep S fuel st = some (st1, n1)) :
    (∀ i, i ∈ st.checked_nodes → i ∈ st1.checked_nodes) ∧
    (∀ i, i ∈ st1.proof.bounded_nodes →
      i ∈ st.proof.bounded_nodes ∨
        ∃ f ∈ st.proof.pending, f.id = i ∧ i ∉ st.checked_nodes) := by
  unfold bmcStep at h
  cases hb : bmcBookkeepAll S st with
  | none => rw [hb] at h; cases h
  | some stb =>
    rw [hb] at h
    dsimp only [] at h
    cases hd : advanceLoopB S (some 1) fuel 0 stb.proof with
    | none => rw [hd] at h; cases h
    | some pn =>
      rw [hd] at h
      obtain ⟨p', n'⟩ := pn
      dsimp only [] at h
      simp only [Option.some.injEq, Prod.mk.injEq] at h
      obtain ⟨hst', hn⟩ := h
      subst hst'
      have hfold := bookkeepFold_spec S st.proof.pending st stb hb
      have hdel := advanceLoopB_bounded S (some 1) fuel 0 stb.proof (p', n') hd
      exact ⟨fun i hi => (hfold.2.2.1 i).mpr (Or.inl hi),
             fun i hi => hfold.2.2.2.2.1 i (hdel.1 ▸ hi)⟩

/-- C10: over any completed run of the outer BMC loop, the checked set only
grows, and a node id that is already checked and not bounded can never
become bounded later (the bound check runs at most once per node id). -/
theorem c10_checked_once :
    ∀ (S : Strategies) (m? : Option Nat) (fuel iterations : Nat) (st : BMCState)
      (res : BMCState × Nat),
      bmcAdvanceLoop S m? fuel iterations st = some res →
      (∀ i, i ∈ st.checked_nodes → i ∈ res.1.checked_nodes) ∧
      (∀ i, i ∈ st.checked_nodes → i ∉ st.proof.bounded_nodes →
        i ∉ res.1.proof.bounded_nodes) := by
  intro S m? fuel
  induction fuel with
  | zero => intro iterations st res h; cases h
  | succ k ih =>
    intro iterations st res h
    unfold bmcAdvanceLoop at h
    cases hp : st.proof.pending with
    | nil =>
      rw [hp] at h
      cases h
      exact ⟨fun i hi => hi, fun i hi hb => hb⟩
    | cons c cs =>
      rw [hp] at h
      cases hbud : budgetReached m? iterations with
      | true =>
        simp only [hbud, if_true] at h
        cases h
        exact ⟨fun i hi => hi, fun i hi hb => hb⟩
      | false =>
        simp only [hbud, Bool.false_eq_true, if_false] at h
        cases hstep : bmcStep S k st with
        | none => rw [hstep] at h; cases h
        | some stn =>
          rw [hstep] at h
          obtain ⟨st1, n1⟩ := stn
          have hone := bmcStep_checked S k st st1 n1 hstep
          have ihres := ih (iterations + 1) st1 res h
          refine ⟨fun i hi => ihres.1 i (hone.1 i hi), ?_⟩
          intro i hi hb
          apply ihres.2 i (hone.1 i hi)
          intro hb1
          rcases hone.2 i hb1 with h0 | ⟨f, hf, rfl, hnc⟩
          · exact hb h0
          · exact hnc hi

/-- The single edge of the C7 graphs. -/
def c7Edge : Successor := Successor.edge (sampleNode 1) (sampleNode 3) 1 []

/-- The BMC proof for C7: one pending leaf (node 3), loop bound 0, and a
prior loop head on the path, so the bookkeeping bounds the leaf. -/
def c7Proof : APRBMCProof :=
  { id := "c7", admitted := false, subproof_ids := [], subproofsLoaded := [],
    kcfg := { nodes := [sampleNode 1, sampleNode 2, sampleNode 3], succs := [c7Edge],
              stuck_marks := [], spathTab := [((1, 3), [c7Edge])], pathsTab := [],
              zeroDepthTab := [] },
    init := 1, target := 2, terminal_nodes := [], node_refutations := [], logs := [],
    circularity := false, bmc_depth := 0, bounded_nodes := [] }

/-- The strategies for C7: everything is the same loop; the implication
check never succeeds; the extend oracle is the identity. -/
def c7Strat : Strategies :=
  { cterm_implies := fun _ _ => none,
    is_terminalF := none, extract_branchesF := none, abstract_nodeF := none,
    extendF := fun g _ l => (g, l),
    same_loop := fun _ _ => true }

/-- The initial C7 prover state. -/
def c7St0 : BMCState := { proof := c7Proof, checked_nodes := [] }

/-- C7, counterexample: an outer iteration whose guard held (a leaf was
pending) bookkeeps that leaf as bounded and then the delegated base call
performs ZERO iterations, refuting "exactly one base-Prover iteration is
delegated". -/
theorem c7_counterexample :
    c7St0.proof.pending ≠ [] ∧
    (bmcStep c7Strat 2 c7St0).map (fun r => r.2) = some 0 := by decide

/-- The C7 state after the counterexample iteration. -/
def c7St1 : BMCState :=
  { proof := { c7Proof with bounded_nodes := [3] }, checked_nodes := [3] }

/-- C7, witness: the amended theorem applied to the concrete iteration. -/
theorem c7_witness :
    bmcStep c7Strat 2 c7St0 = some (c7St1, 0) ∧
    (3 ∈ c7St1.checked_nodes ↔ 3 ∈ c7St0.checked_nodes ∨
      ∃ f ∈ c7St0.proof.pending, f.id = 3) ∧
    (0 : Nat) ≤ 1 :=
  ⟨by decide,
   (c7_bmc_iteration c7Strat 2 c7St0 c7St1 0 (by decide)).1 3,
   (c7_bmc_iteration c7Strat 2 c7St0 c7St1 0 (by decide)).2.2.2.1⟩

/-- The single edge of the C10 graph. -/
def c10Edge : Successor := Successor.edge (sampleNode 1) (sampleNode 3) 1 []

/-- The BMC proof for the C10 witness: node 3 is pending, would be bounded
if checked (loop head on path, bound 0), but is already recorded in
`_checked_nodes`. -/
def c10Proof : APRBMCProof :=
  { id := "c10", admitted := false, subproof_ids := [], subproofsLoaded := [],
    kcfg := { nodes := [sampleNode 1, sampleNode 2, sampleNode 3], succs := [c10Edge],
              stuck_marks := [], spathTab := [((1, 3), [c10Edge])], pathsTab := [],
              zeroDepthTab := [] },
    init := 1, target := 2, terminal_nodes := [], node_refutations := [], logs := [],
    circularity := false, bmc_depth := 0, bounded_nodes := [] }

/-- The strategies for the C10 witness: every pair is the same loop (so a
fresh check would bound node 3), and the implication check subsumes the
leaf into the target. -/
def c10Strat : Strategies :=
  { cterm_implies := fun _ _ => some ⟨[], []⟩,
    is_terminalF := none, extract_branchesF := none, abstract_nodeF := none,
    extendF := fun g _ l => (g, l),
    same_loop := fun _ _ => true }

/-- The initial C10 state: node 3 already checked, not bounded. -/
def c10St0 : BMCState := { proof := c10Proof, checked_nodes := [3] }

/-- The C10 proof after the run: node 3 covered into the target. -/
def c10ProofAfter : APRBMCProof :=
  { c10Proof with kcfg := { c10Proof.kcfg with
      succs := [c10Edge, Successor.cover (sampleNode 3) (sampleNode 2) ⟨[], []⟩] } }

/-- The result of the concrete C10 run. -/
def c10Res : BMCState × Nat := ({ proof := c10ProofAfter, checked_nodes := [3] }, 1)

/-- C10, witness: the theorem applied to a concrete run in which node 3
stays pending into an iteration (and would be bounded by a fresh check)
but, being already checked, is skipped and never becomes bounded. -/
theorem c10_witness :
    3 ∈ c10St0.checked_nodes ∧ 3 ∉ c10St0.proof.bounded_nodes ∧
    3 ∉ c10Res.1.proof.bounded_nodes :=
  ⟨by decide, by decide,
   (c10_checked_once c10Strat (some 5) 4 0 c10St0 c10Res (by decide)).2 3
     (by decide) (by decide)⟩
